import Mathlib

/-!
# The SEN54 protocol engine (`pkg/sensors/sen54/sen54.go`)

A shallow embedding of the Go package `sen54` and the properties of its
checksum, framing and decoding code.

Modelling conventions

* A Go `byte` is a `Fin 256`; `uint16` and `int` values are natural numbers
  and every wrap-around of the source is written out as an explicit `%`.
* A Go slice is a `List Byte`.  An index or slice expression that is out of
  range panics in Go; a function that may panic returns an `Option`, and
  `none` is the panic.
* A Go result pair `(v, err)` is a Lean pair whose second component is an
  `Option String`: `none` is the `nil` error, `some msg` an error whose text
  is `msg`.
* The I2C bus and the clock are outside the package.  Every bus transaction,
  sleep and mutex operation is appended to an explicit list of events, and
  the bus itself is an arbitrary function of the events so far and of the
  transaction's arguments.
* A `float64` value is the rational number it denotes.  Every `float64`
  operation of the source is the exact operation followed by `round64`, the
  IEEE 754 binary64 rounding to nearest with ties to even.  The operands of
  the package are 16-bit integers and small constants, so no result
  overflows, and infinities and NaN do not arise.
-/

namespace sen54

/-! ## Machine values -/

/-- A Go `byte`. -/
abbrev Byte := Fin 256

/-- The conversion `byte(n)`: the low eight bits of `n`. -/
def toByte (n : Nat) : Byte := ⟨n % 256, Nat.mod_lt n (by decide)⟩

/-- The conversion `int16(u)` of a `uint16`: two's-complement reinterpretation. -/
def toInt16 (u : Nat) : Int :=
  if u % 65536 < 32768 then ((u % 65536 : Nat) : Int) else ((u % 65536 : Nat) : Int) - 65536

/-- Rounding of a rational to the nearest integer, ties to the even one. -/
def roundHalfEven (x : ℚ) : ℤ :=
  if x - ⌊x⌋ < 1 / 2 then ⌊x⌋
  else if 1 / 2 < x - ⌊x⌋ then ⌊x⌋ + 1
  else if ⌊x⌋ % 2 = 0 then ⌊x⌋ else ⌊x⌋ + 1

/-- The `float64` nearest to `q`, ties to even: with `e` the binary exponent
of `q`, at least the smallest normal exponent -1022, `q` is rounded to a
multiple of `2 ^ (e - 52)`, which leaves 53 significant bits (fewer in the
subnormal range). -/
def round64 (q : ℚ) : ℚ :=
  if q = 0 then 0
  else (roundHalfEven (q / 2 ^ (max (Int.log 2 |q|) (-1022) - 52)) : ℚ)
    * 2 ^ (max (Int.log 2 |q|) (-1022) - 52)

/-- The `float64` quotient `a / b`. -/
def divFloat64 (a b : ℚ) : ℚ := round64 (a / b)

/-- The `float64` product `a * b`. -/
def mulFloat64 (a b : ℚ) : ℚ := round64 (a * b)

/-- One millisecond as a `time.Duration`, which counts nanoseconds. -/
def Millisecond : Int := 1000000

/-! ## Constants and the command catalog (lines 11-38) -/

def SensorAddr : Nat := 0x69
def StartPeriodicMeasurement : Nat := 0x0021
def ReadMeasurement : Nat := 0x03C4
def StopPeriodicMeasurement : Nat := 0x0104
def CRC8_POLYNOMIAL : Byte := 0x31
def CRC8_INIT : Byte := 0xff

/-- The Go struct `Command`; `cmd` and `respBytes` are `uint16`. -/
structure Command where
  cmd : Nat
  respBytes : Nat
  delay : Int
  desc : String
  deriving DecidableEq

def StartCommand : Command :=
  Command.mk StartPeriodicMeasurement 0 (100 * Millisecond) "start periodic measurements"

def StopCommand : Command :=
  Command.mk StopPeriodicMeasurement 0 (250 * Millisecond) "stop periodic measurements"

def MeasureCommand : Command :=
  Command.mk ReadMeasurement 24 (70 * Millisecond) "read sensor metrics"

/-! ## The outside world: bus, clock and mutex -/

/-- What the package does to the outside world.  `tx addr w r` is one call of
the bus's `Tx` with write buffer `w`; `r` is `none` for a `nil` read buffer
and `some n` for a read buffer of `n` bytes. -/
inductive Event where
  | lock : Event
  | unlock : Event
  | tx (addr : Nat) (w : List Byte) (r : Option Nat) : Event
  | sleep (d : Int) : Event
  deriving DecidableEq

/-- The interface `i2c.Bus`.  The outcome of a transaction may depend on
everything that happened before it; it is an error text or the bytes the
device sends back. -/
structure Bus where
  Tx : List Event → Nat → List Byte → Option Nat → Except String (List Byte)

/-- The struct `i2c.Dev`: a bus together with a device address. -/
structure Dev where
  Addr : Nat
  Bus : Bus

/-- The read buffer after a transaction: it keeps the length it was made
with, starts zeroed, and holds the bytes the device sent from its start. -/
def fillBuffer (n : Nat) (sent : List Byte) : List Byte :=
  (sent ++ List.replicate n 0).take n

/-- The method `i2c.Dev.Tx(w, r)`: one bus transaction at the device's
address.  Returns the error or the read buffer, and the extended events. -/
def Dev.Tx (d : Dev) (tr : List Event) (w : List Byte) (r : Option Nat) :
    Except String (List Byte) × List Event :=
  match d.Bus.Tx tr d.Addr w r with
  | .error e => (.error e, tr ++ [Event.tx d.Addr w r])
  | .ok sent => (.ok (fillBuffer (r.getD 0) sent), tr ++ [Event.tx d.Addr w r])

/-- The function `time.Sleep(d)`. -/
def Sleep (tr : List Event) (d : Int) : List Event := tr ++ [Event.sleep d]

/-- The function `binary.BigEndian.PutUint16` on a fresh two-byte slice. -/
def PutUint16 (v : Nat) : List Byte := [toByte (v >>> 8), toByte v]

/-- The function `binary.BigEndian.Uint16`: panics on fewer than two bytes. -/
def Uint16 (b : List Byte) : Option Nat :=
  match b with
  | b0 :: b1 :: _ => some (b1.val ||| b0.val <<< 8)
  | _ => none

/-! ## Data types (lines 43-73) -/

structure Sen54 where
  dev : Dev

def New (b : Bus) : Sen54 := Sen54.mk (Dev.mk SensorAddr b)

structure SensorData where
  PM1_0 : ℚ
  PM2_5 : ℚ
  PM4 : ℚ
  PM10 : ℚ
  Humidity : ℚ
  Temp : ℚ
  VOC : ℚ
  deriving DecidableEq

/-- The zero value of `SensorData`, as declared by `var result SensorData`. -/
def SensorData.zero : SensorData := SensorData.mk 0 0 0 0 0 0 0

structure Response where
  data : List Byte
  crc : Byte
  deriving DecidableEq

/-! ## The checksum (lines 127-141) -/

/-- The inner loop of `crc8`: `crcBit` rounds on the accumulator. -/
def crc8Bits : Nat → Byte → Byte
  | 0, crc => crc
  | crcBit + 1, crc =>
    if crc.val &&& 0x80 ≠ 0 then
      crc8Bits crcBit (toByte ((crc.val <<< 1) % 256 ^^^ CRC8_POLYNOMIAL.val))
    else
      crc8Bits crcBit (toByte (crc.val <<< 1))

/-- The outer loop of `crc8` with `n` iterations left, `n = count - currentByte`. -/
def crc8Bytes (data : List Byte) : Nat → Nat → Byte → Option Byte
  | 0, _, crc => some crc
  | n + 1, currentByte, crc =>
    match data[currentByte]? with
    | none => none
    | some b => crc8Bytes data n (currentByte + 1) (crc8Bits 8 (toByte (crc.val ^^^ b.val)))

/-- The function `crc8(data, count)`; `count` is a `uint16`. -/
def crc8 (data : List Byte) (count : Nat) : Option Byte :=
  crc8Bytes data count 0 CRC8_INIT

/-! ## Responses (lines 75-81) -/

/-- The method `Response.CrcMatch`; `uint16(len(r.data))` truncates the length. -/
def Response.CrcMatch (r : Response) : Option Bool :=
  match crc8 r.data (r.data.length % 65536) with
  | none => none
  | some c => some (c == r.crc)

/-- The method `Response.GetData`. -/
def Response.GetData (r : Response) : Option Nat := Uint16 r.data

/-! ## Transport and framing (lines 143-171) -/

/-- The method `sendCommand`: the returned error and the events. -/
def Sen54.sendCommand (s : Sen54) (cmd : Command) (tr : List Event) :
    Option String × List Event :=
  let c := PutUint16 cmd.cmd
  match s.dev.Tx tr c none with
  | (.error err, tr1) => (some ("error while " ++ cmd.desc ++ ": " ++ err), tr1)
  | (.ok _, tr1) => (none, if cmd.delay > 0 then Sleep tr1 cmd.delay else tr1)

/-- The slice expression `r[i:j]`, which panics when `j` exceeds the length. -/
def slice (r : List Byte) (i j : Nat) : Option (List Byte) :=
  if i ≤ j ∧ j ≤ r.length then some ((r.take j).drop i) else none

/-- The framing loop of `readCommand` (lines 163-166) from index `i` on. -/
def readCommandLoop (r : List Byte) (respBytes : Nat) (i : Nat) (resp : List Response) :
    Option (List Response) :=
  if (i : Int) < (respBytes : Int) - 2 then
    match slice r i (i + 2), r[i + 2]? with
    | some data, some crc => readCommandLoop r respBytes (i + 3) (resp ++ [Response.mk data crc])
    | _, _ => none
  else
    some resp
termination_by respBytes - i
decreasing_by omega

/-- The method `readCommand`: `none` is a panic, otherwise the returned pair
and the events.  On a bus error the returned slice is `nil`. -/
def Sen54.readCommand (s : Sen54) (cmd : Command) (tr : List Event) :
    Option ((List Response × Option String) × List Event) :=
  let c := PutUint16 cmd.cmd
  match s.dev.Tx tr c (some cmd.respBytes) with
  | (.error err, tr1) => some (([], some ("error while " ++ cmd.desc ++ ": " ++ err)), tr1)
  | (.ok r, tr1) =>
    match readCommandLoop r cmd.respBytes 0 [] with
    | none => none
    | some resp => some ((resp, none), if cmd.delay > 0 then Sleep tr1 cmd.delay else tr1)

/-! ## The operations (lines 83-125) -/

/-- The method `StartMeasurements`. -/
def Sen54.StartMeasurements (s : Sen54) (tr : List Event) : Option String × List Event :=
  match s.sendCommand StartCommand (tr ++ [Event.lock]) with
  | (some err, tr1) => (some err, tr1 ++ [Event.unlock])
  | (none, tr1) => (none, tr1 ++ [Event.unlock])

/-- The method `StopMeasurements`. -/
def Sen54.StopMeasurements (s : Sen54) (tr : List Event) : Option String × List Event :=
  match s.sendCommand StopCommand (tr ++ [Event.lock]) with
  | (some err, tr1) => (some err, tr1 ++ [Event.unlock])
  | (none, tr1) => (none, tr1 ++ [Event.unlock])

/-- The loop `for _, r := range resp` of `ReadMeasurement` (lines 110-114):
`some false` when it returns the mismatch error, `some true` when it ends. -/
def crcLoop : List Response → Option Bool
  | [] => some true
  | r :: rest =>
    match r.CrcMatch with
    | none => none
    | some false => some false
    | some true => crcLoop rest

/-- The expression `resp[k].GetData()`: panics when `resp` has no index `k`. -/
def fieldData (resp : List Response) (k : Nat) : Option Nat :=
  match resp[k]? with
  | none => none
  | some r => r.GetData

/-- The composite literal of lines 115-123 on the seven raw field values.
The conversions `float64(uint16)` and `float64(int16)` are exact; each
division and the multiplication by 100 rounds. -/
def scale (d0 d1 d2 d3 d4 d5 d6 : Nat) : SensorData :=
  SensorData.mk
    (divFloat64 (d0 : ℚ) 10)
    (divFloat64 (d1 : ℚ) 10)
    (divFloat64 (d2 : ℚ) 10)
    (divFloat64 (d3 : ℚ) 10)
    (mulFloat64 100 (divFloat64 (toInt16 d4 : ℚ) 100))
    (divFloat64 (toInt16 d5 : ℚ) 200)
    (divFloat64 (toInt16 d6 : ℚ) 10)

/-- The assignment `result = SensorData{...}` of lines 115-123. -/
def decode (resp : List Response) : Option SensorData :=
  match fieldData resp 0, fieldData resp 1, fieldData resp 2, fieldData resp 3,
    fieldData resp 4, fieldData resp 5, fieldData resp 6 with
  | some d0, some d1, some d2, some d3, some d4, some d5, some d6 =>
    some (scale d0 d1 d2 d3 d4 d5 d6)
  | _, _, _, _, _, _, _ => none

/-- The method `ReadMeasurement`: `none` is a panic, otherwise the returned
pair and the events. -/
def Sen54.ReadMeasurement (s : Sen54) (tr : List Event) :
    Option ((SensorData × Option String) × List Event) :=
  let result := SensorData.zero
  match s.readCommand MeasureCommand (tr ++ [Event.lock]) with
  | none => none
  | some ((_, some err), tr1) => some ((result, some err), tr1 ++ [Event.unlock])
  | some ((resp, none), tr1) =>
    match crcLoop resp with
    | none => none
    | some false => some ((result, some "measuerment CRC mismatch"), tr1 ++ [Event.unlock])
    | some true =>
      match decode resp with
      | none => none
      | some data => some ((data, none), tr1 ++ [Event.unlock])

/-! ## Definitions for stating the properties -/

/-- One round as the specification words it: shift left by one discarding the
overflow, and exclusive-or with `0x31` when bit 7 was set. -/
def specRound (acc : Nat) : Nat :=
  if acc.testBit 7 then ((acc <<< 1) % 256) ^^^ 0x31 else (acc <<< 1) % 256

/-- The checksum as the specification words it: start from `0xFF`; for each
byte in order exclusive-or it into the accumulator and do eight rounds. -/
def specCrc8 (bytes : List Byte) : Nat :=
  bytes.foldl (fun acc b => specRound^[8] (acc ^^^ b.val)) 0xFF

/-- The `k`-th consecutive 3-byte group of a buffer, as the specification
words the framing: two value bytes and one checksum byte. -/
def specGroup (r : List Byte) (k : Nat) : Response :=
  Response.mk [r.getD (3 * k) 0, r.getD (3 * k + 1) 0] (r.getD (3 * k + 2) 0)

/-- The checksum byte of the `k`-th 3-byte group of `r` is the checksum of
the group's two value bytes. -/
def checksumOK (r : List Byte) (k : Nat) : Prop :=
  crc8 [r.getD (3 * k) 0, r.getD (3 * k + 1) 0] 2 = some (r.getD (3 * k + 2) 0)

instance (r : List Byte) (k : Nat) : Decidable (checksumOK r k) :=
  inferInstanceAs (Decidable (crc8 [r.getD (3 * k) 0, r.getD (3 * k + 1) 0] 2
    = some (r.getD (3 * k + 2) 0)))

/-- The big-endian 16-bit value of the `k`-th 3-byte group of `r`. -/
def rawValue (r : List Byte) (k : Nat) : Nat :=
  256 * (r.getD (3 * k) 0).val + (r.getD (3 * k + 1) 0).val

/-- The events of a successful `readCommand(MeasureCommand)` inside
`ReadMeasurement`, started after the events `tr`. -/
def measureEvents (s : Sen54) (tr : List Event) : List Event :=
  tr ++ [Event.lock, Event.tx s.dev.Addr (PutUint16 ReadMeasurement) (some 24),
    Event.sleep (70 * Millisecond), Event.unlock]

/-- A 16-bit pattern read as a two's-complement number, as the specification
words it: `u` below 32768 stays `u`, any other `u` becomes `u - 65536`. -/
def specSigned (u : Nat) : Int :=
  if u < 32768 then (u : Int) else (u : Int) - 65536

/-! ## Example buses -/

/-- A bus on which every transaction succeeds and the device sends `sent`. -/
def busOf (sent : List Byte) : Bus := Bus.mk (fun _ _ _ _ => .ok sent)

/-- A response whose eight groups are all `00 00 81`: every value is zero and
every checksum is right. -/
def zeroResponse : List Byte :=
  [0x00, 0x00, 0x81, 0x00, 0x00, 0x81, 0x00, 0x00, 0x81, 0x00, 0x00, 0x81,
   0x00, 0x00, 0x81, 0x00, 0x00, 0x81, 0x00, 0x00, 0x81, 0x00, 0x00, 0x81]

/-- Seven groups `00 00 81` with a right checksum, then the eighth group
`00 00 00`, whose checksum is wrong. -/
def lastGroupBad : List Byte :=
  [0x00, 0x00, 0x81, 0x00, 0x00, 0x81, 0x00, 0x00, 0x81, 0x00, 0x00, 0x81,
   0x00, 0x00, 0x81, 0x00, 0x00, 0x81, 0x00, 0x00, 0x81, 0x00, 0x00, 0x00]

/-- The checksum byte of field 0 is corrupted, every other group is right. -/
def field0Bad : List Byte :=
  [0x00, 0x00, 0x00, 0x00, 0x00, 0x81, 0x00, 0x00, 0x81, 0x00, 0x00, 0x81,
   0x00, 0x00, 0x81, 0x00, 0x00, 0x81, 0x00, 0x00, 0x81, 0x00, 0x00, 0x81]

/-- The checksum byte of field 3 is corrupted, every other group is right. -/
def field3Bad : List Byte :=
  [0x00, 0x00, 0x81, 0x00, 0x00, 0x81, 0x00, 0x00, 0x81, 0x00, 0x00, 0x00,
   0x00, 0x00, 0x81, 0x00, 0x00, 0x81, 0x00, 0x00, 0x81, 0x00, 0x00, 0x81]

/-- A response with right checksums: particulate fields `FFFF`, `0001`,
`0000`, `0000`, humidity `1194` (4500), temperature `FFFF`, VOC `8000`. -/
def sampleResponse : List Byte :=
  [0xFF, 0xFF, 0xAC, 0x00, 0x01, 0xB0, 0x00, 0x00, 0x81, 0x00, 0x00, 0x81,
   0x11, 0x94, 0xE6, 0xFF, 0xFF, 0xAC, 0x80, 0x00, 0xA2, 0x00, 0x00, 0x81]

/-- A response with right checksums whose humidity, temperature and VOC
fields are `FFFF`, `8000` and `FFFF`. -/
def negativeResponse : List Byte :=
  [0x00, 0x00, 0x81, 0x00, 0x00, 0x81, 0x00, 0x00, 0x81, 0x00, 0x00, 0x81,
   0xFF, 0xFF, 0xAC, 0x80, 0x00, 0xA2, 0xFF, 0xFF, 0xAC, 0x00, 0x00, 0x81]

/-- A bus on which every transaction fails with the cause `e`. -/
def failingBus (e : String) : Bus := Bus.mk (fun _ _ _ _ => .error e)

/-- A command outside the catalog: opcode `0x0000`, a response of 4 bytes,
which is not a multiple of 3, and no settle delay. -/
def fourByteCommand : Command := Command.mk 0x0000 4 0 "read four bytes"

/-- A 4-byte response: the group `00 00 81` and one more byte. -/
def fourBytes : List Byte := [0x00, 0x00, 0x81, 0x55]

/-! ## Lemmas -/

theorem roundHalfEven_cases (x : ℚ) :
    roundHalfEven x = ⌊x⌋ ∧ x - ⌊x⌋ ≤ 1 / 2 ∨ roundHalfEven x = ⌊x⌋ + 1 ∧ 1 / 2 ≤ x - ⌊x⌋ := by
  unfold roundHalfEven
  by_cases h1 : x - ⌊x⌋ < 1 / 2
  · rw [if_pos h1]; exact Or.inl ⟨rfl, le_of_lt h1⟩
  · rw [if_neg h1]
    by_cases h2 : 1 / 2 < x - ⌊x⌋
    · rw [if_pos h2]; exact Or.inr ⟨rfl, le_of_lt h2⟩
    · rw [if_neg h2]
      have e : x - ⌊x⌋ = 1 / 2 := le_antisymm (not_lt.1 h2) (not_lt.1 h1)
      by_cases h3 : ⌊x⌋ % 2 = 0
      · rw [if_pos h3]; exact Or.inl ⟨rfl, le_of_eq e⟩
      · rw [if_neg h3]; exact Or.inr ⟨rfl, le_of_eq e.symm⟩

theorem roundHalfEven_of_near (x : ℚ) (k : ℤ) (h : |x - k| < 1 / 2) : roundHalfEven x = k := by
  have hlo := (abs_lt.1 h).1
  have hhi := (abs_lt.1 h).2
  have hf1 : (⌊x⌋ : ℚ) ≤ x := Int.floor_le x
  have hf2 : x < ⌊x⌋ + 1 := Int.lt_floor_add_one x
  rcases roundHalfEven_cases x with ⟨e, hx⟩ | ⟨e, hx⟩
  · rw [e]
    have a : (⌊x⌋ : ℚ) < k + 1 := by linarith
    have b : (k : ℚ) < ⌊x⌋ + 1 := by linarith
    have a2 : ⌊x⌋ < k + 1 := by exact_mod_cast a
    have b2 : k < ⌊x⌋ + 1 := by exact_mod_cast b
    omega
  · rw [e]
    have a : (⌊x⌋ : ℚ) + 1 < k + 1 := by linarith
    have b : (k : ℚ) < ⌊x⌋ + 1 + 1 := by linarith
    have a2 : ⌊x⌋ + 1 < k + 1 := by exact_mod_cast a
    have b2 : k < ⌊x⌋ + 1 + 1 := by exact_mod_cast b
    omega

theorem roundHalfEven_abs_sub_le (x : ℚ) : |(roundHalfEven x : ℚ) - x| ≤ 1 / 2 := by
  have hf1 : (⌊x⌋ : ℚ) ≤ x := Int.floor_le x
  have hf2 : x < ⌊x⌋ + 1 := Int.lt_floor_add_one x
  rw [abs_le]
  rcases roundHalfEven_cases x with ⟨e, hx⟩ | ⟨e, hx⟩
  · rw [e]; constructor <;> linarith
  · rw [e]; push_cast; constructor <;> linarith

theorem roundHalfEven_le_of_le (x : ℚ) (n : ℤ) (h : x ≤ n) : roundHalfEven x ≤ n := by
  have hf1 : (⌊x⌋ : ℚ) ≤ x := Int.floor_le x
  rcases roundHalfEven_cases x with ⟨e, hx⟩ | ⟨e, hx⟩
  · rw [e]
    have : (⌊x⌋ : ℚ) ≤ n := by linarith
    exact_mod_cast this
  · rw [e]
    have : (⌊x⌋ : ℚ) < n := by linarith
    have : ⌊x⌋ < n := by exact_mod_cast this
    omega

theorem roundHalfEven_nonneg (x : ℚ) (h : 0 ≤ x) : 0 ≤ roundHalfEven x := by
  have hf : 0 ≤ ⌊x⌋ := Int.floor_nonneg.2 h
  rcases roundHalfEven_cases x with ⟨e, _⟩ | ⟨e, _⟩ <;> rw [e] <;> omega

theorem round64_zero : round64 0 = 0 := by simp [round64]

theorem round64_nonneg (q : ℚ) (h : 0 ≤ q) : 0 ≤ round64 q := by
  unfold round64
  split
  · exact le_refl 0
  · apply mul_nonneg
    · have : 0 ≤ roundHalfEven (q / 2 ^ (max (Int.log 2 |q|) (-1022) - 52)) :=
        roundHalfEven_nonneg _ (div_nonneg h (by positivity))
      exact_mod_cast this
    · positivity

theorem log_abs_eq (q : ℚ) (e : ℤ) (h1 : (2 : ℚ) ^ e ≤ |q|) (h2 : |q| < 2 ^ (e + 1)) :
    Int.log 2 |q| = e := by
  have hpos : 0 < |q| := lt_of_lt_of_le (by positivity) h1
  have a : e ≤ Int.log 2 |q| := by
    rw [← Int.zpow_le_iff_le_log (by norm_num) hpos]
    simpa using h1
  have b : Int.log 2 |q| < e + 1 := by
    rw [← Int.lt_zpow_iff_log_lt (by norm_num) hpos]
    simpa using h2
  omega

theorem round64_eval (q : ℚ) (e k : ℤ) (h1 : (2 : ℚ) ^ e ≤ |q|) (h2 : |q| < 2 ^ (e + 1))
    (he : -1022 ≤ e) (hk : |q / 2 ^ (e - 52) - k| < 1 / 2) :
    round64 q = k * 2 ^ (e - 52) := by
  have hpos : 0 < |q| := lt_of_lt_of_le (by positivity) h1
  have hq : q ≠ 0 := abs_pos.1 hpos
  unfold round64
  rw [if_neg hq, log_abs_eq q e h1 h2, max_eq_left he, roundHalfEven_of_near _ k hk]

theorem round64_le_neg (q : ℚ) (k : ℤ) (hk : -1022 ≤ k) (h : q ≤ -(2 : ℚ) ^ k) :
    round64 q ≤ -(2 : ℚ) ^ k := by
  have hkpos : (0 : ℚ) < 2 ^ k := by positivity
  have hneg : q < 0 := by linarith
  have hq : q ≠ 0 := ne_of_lt hneg
  have habs : |q| = -q := abs_of_neg hneg
  have hpos : 0 < |q| := by rw [habs]; linarith
  have hlog : k ≤ Int.log 2 |q| := by
    rw [← Int.zpow_le_iff_le_log (by norm_num) hpos, habs]
    simpa using (by linarith : (2 : ℚ) ^ k ≤ -q)
  have hle : (2 : ℚ) ^ (Int.log 2 |q|) ≤ |q| := by
    simpa using Int.zpow_log_le_self (b := 2) (r := |q|) (by norm_num) hpos
  unfold round64
  rw [if_neg hq, max_eq_left (by omega)]
  set e := Int.log 2 |q| with he
  have hu : (0 : ℚ) < 2 ^ (e - 52) := by positivity
  have this : (2 : ℚ) ^ 52 * 2 ^ (e - 52) = 2 ^ e := by
    rw [← zpow_natCast, ← zpow_add₀ (by norm_num)]
    congr 1
    omega
  have hx : q / 2 ^ (e - 52) ≤ ((-(2 ^ 52) : ℤ) : ℚ) := by
    rw [div_le_iff₀ hu]
    have c : (((-(2 ^ 52) : ℤ) : ℚ)) = -(2 : ℚ) ^ 52 := by norm_num
    rw [c, neg_mul, this]
    rw [habs] at hle
    linarith
  have hr := roundHalfEven_le_of_le _ _ hx
  have hr2 : (roundHalfEven (q / 2 ^ (e - 52)) : ℚ) ≤ -(2 ^ 52) := by
    have c : (((-(2 ^ 52) : ℤ) : ℚ)) = -(2 : ℚ) ^ 52 := by norm_num
    rw [← c]
    exact_mod_cast hr
  have hke : (2 : ℚ) ^ k ≤ 2 ^ e := zpow_le_zpow_right₀ (by norm_num) hlog
  calc (roundHalfEven (q / 2 ^ (e - 52)) : ℚ) * 2 ^ (e - 52)
      ≤ -(2 ^ 52) * 2 ^ (e - 52) := mul_le_mul_of_nonneg_right hr2 (le_of_lt hu)
    _ = -(2 : ℚ) ^ e := by rw [neg_mul, this]
    _ ≤ -(2 : ℚ) ^ k := by linarith

theorem round64_error (q : ℚ) (h : (2 : ℚ) ^ (-1022 : ℤ) ≤ |q|) :
    |round64 q - q| ≤ |q| / 2 ^ 53 := by
  have hpos : 0 < |q| := lt_of_lt_of_le (by positivity) h
  have hq : q ≠ 0 := abs_pos.1 hpos
  have hlog : -1022 ≤ Int.log 2 |q| := by
    rw [← Int.zpow_le_iff_le_log (by norm_num) hpos]
    simpa using h
  have hle : (2 : ℚ) ^ (Int.log 2 |q|) ≤ |q| := by
    simpa using Int.zpow_log_le_self (b := 2) (r := |q|) (by norm_num) hpos
  unfold round64
  rw [if_neg hq, max_eq_left hlog]
  set e := Int.log 2 |q| with he
  have hu : (0 : ℚ) < 2 ^ (e - 52) := by positivity
  have hr := roundHalfEven_abs_sub_le (q / 2 ^ (e - 52))
  have e1 : (roundHalfEven (q / 2 ^ (e - 52)) : ℚ) * 2 ^ (e - 52) - q
      = ((roundHalfEven (q / 2 ^ (e - 52)) : ℚ) - q / 2 ^ (e - 52)) * 2 ^ (e - 52) := by
    field_simp
  rw [e1, abs_mul, abs_of_pos hu]
  have e2 : (2 : ℚ) ^ (e - 52) = 2 ^ e / 2 ^ 52 := by
    rw [zpow_sub₀ (by norm_num)]
    norm_num
  calc |(roundHalfEven (q / 2 ^ (e - 52)) : ℚ) - q / 2 ^ (e - 52)| * 2 ^ (e - 52)
      ≤ 1 / 2 * 2 ^ (e - 52) := mul_le_mul_of_nonneg_right hr (le_of_lt hu)
    _ = 2 ^ e / 2 ^ 53 := by rw [e2]; ring
    _ ≤ |q| / 2 ^ 53 := by
      apply div_le_div_of_nonneg_right hle
      positivity

theorem round64_error_or (q : ℚ) (h : q = 0 ∨ (2 : ℚ) ^ (-1022 : ℤ) ≤ |q|) :
    |round64 q - q| ≤ |q| / 2 ^ 53 := by
  rcases h with h | h
  · subst h
    simp [round64_zero]
  · exact round64_error q h

theorem int_div_normal (n : ℤ) (c : ℚ) (hc : 0 < c) (hc2 : c ≤ 200) :
    (n : ℚ) / c = 0 ∨ (2 : ℚ) ^ (-1022 : ℤ) ≤ |(n : ℚ) / c| := by
  by_cases hn : n = 0
  · left
    simp [hn]
  · right
    have h1 : (1 : ℚ) ≤ |(n : ℚ)| := by
      have : (1 : ℤ) ≤ |n| := Int.one_le_abs hn
      exact_mod_cast this
    have h2 : (2 : ℚ) ^ (-1022 : ℤ) ≤ 2 ^ (-8 : ℤ) :=
      zpow_le_zpow_right₀ (by norm_num) (by norm_num)
    have h3 : (2 : ℚ) ^ (-8 : ℤ) ≤ 1 / c := by
      rw [le_div_iff₀ hc]
      have : (2 : ℚ) ^ (-8 : ℤ) = 1 / 256 := by norm_num
      rw [this]
      linarith
    have h4 : 1 / c ≤ |(n : ℚ)| / c := div_le_div_of_nonneg_right h1 (le_of_lt hc)
    rw [abs_div, abs_of_pos hc]
    linarith


theorem xor_lt_256 {a b : Nat} (ha : a < 256) (hb : b < 256) : a ^^^ b < 256 :=
  Nat.xor_lt_two_pow (n := 8) ha hb

theorem toByte_val_of_lt {n : Nat} (h : n < 256) : (toByte n).val = n := by
  simp [toByte, Nat.mod_eq_of_lt h]

theorem and_128_ne_zero_iff (c : Nat) : c &&& 0x80 ≠ 0 ↔ c.testBit 7 = true := by
  constructor
  · intro h
    by_contra hb
    apply h
    apply Nat.eq_of_testBit_eq
    intro i
    rw [Nat.testBit_and, Nat.zero_testBit]
    by_cases hi : i = 7
    · subst hi; simp [hb]
    · have : Nat.testBit 0x80 i = false := by
        have h2 : (0x80 : Nat) = 2 ^ 7 := by norm_num
        rw [h2, Nat.testBit_two_pow]
        simp; omega
      simp [this]
  · intro hb h
    have := congrArg (fun x => Nat.testBit x 7) h
    simp [Nat.testBit_and, hb] at this
    have h2 : (0x80 : Nat) = 2 ^ 7 := by norm_num
    rw [h2, Nat.testBit_two_pow] at this
    simp at this

theorem crc8Bits_succ (k : Nat) (c : Byte) :
    crc8Bits (k + 1) c = crc8Bits k (toByte (specRound c.val)) := by
  rw [crc8Bits]
  by_cases h : c.val &&& 0x80 ≠ 0
  · rw [if_pos h]
    have hb := (and_128_ne_zero_iff c.val).1 h
    have hp : CRC8_POLYNOMIAL.val = 0x31 := rfl
    rw [hp]
    simp [specRound, hb]
  · rw [if_neg h]
    have hb : c.val.testBit 7 = false := by
      cases hc : c.val.testBit 7
      · rfl
      · exact absurd ((and_128_ne_zero_iff c.val).2 hc) h
    simp [specRound, hb, toByte]

theorem specRound_lt (a : Nat) : specRound a < 256 := by
  unfold specRound
  split
  · exact xor_lt_256 (Nat.mod_lt _ (by decide)) (by decide)
  · exact Nat.mod_lt _ (by decide)

theorem crc8Bits_val (k : Nat) (c : Byte) : (crc8Bits k c).val = specRound^[k] c.val := by
  induction k generalizing c with
  | zero => rfl
  | succ k ih =>
    rw [crc8Bits_succ, ih, toByte_val_of_lt (specRound_lt _), Function.iterate_succ_apply]

theorem crc8Bytes_eq (data : List Byte) (n i : Nat) (crc : Byte) (h : i + n ≤ data.length) :
    (crc8Bytes data n i crc).map Fin.val
      = some (((data.drop i).take n).foldl (fun acc b => specRound^[8] (acc ^^^ b.val)) crc.val) := by
  induction n generalizing i crc with
  | zero => simp [crc8Bytes]
  | succ n ih =>
    have hi : i < data.length := by omega
    rw [crc8Bytes, List.getElem?_eq_getElem hi]
    simp only []
    rw [ih (i + 1) _ (by omega), List.drop_eq_getElem_cons hi, List.take_succ_cons,
      List.foldl_cons, crc8Bits_val, toByte_val_of_lt (xor_lt_256 crc.isLt (data[i]).isLt)]

theorem fillBuffer_length (n : Nat) (sent : List Byte) : (fillBuffer n sent).length = n := by
  simp [fillBuffer]

theorem slice_two (r : List Byte) (i : Nat) (h : i + 2 ≤ r.length) :
    slice r i (i + 2) = some [r.getD i 0, r.getD (i + 1) 0] := by
  have h0 : i < r.length := by omega
  have h1 : i + 1 < r.length := by omega
  have hd : (r.take (i + 2)).drop i = [r.getD i 0, r.getD (i + 1) 0] := by
    rw [List.drop_take, List.drop_eq_getElem_cons h0, List.drop_eq_getElem_cons h1]
    have : i + 2 - i = 2 := by omega
    rw [this, List.getD_eq_getElem _ _ h0, List.getD_eq_getElem _ _ h1]
    rfl
  simp [slice, h, hd]

theorem readCommandLoop_eq (r : List Byte) (n : Nat) (hn : n ≤ r.length) :
    ∀ (d j : Nat) (resp : List Response), d = n / 3 - j →
      readCommandLoop r n (3 * j) resp = some (resp ++ (List.range' j d).map (specGroup r)) := by
  intro d
  induction d with
  | zero =>
    intro j resp hd
    rw [readCommandLoop]
    have : ¬ (((3 * j : Nat) : Int) < (n : Int) - 2) := by omega
    rw [if_neg this]
    simp
  | succ d ih =>
    intro j resp hd
    rw [readCommandLoop]
    have hc : (((3 * j : Nat) : Int) < (n : Int) - 2) := by omega
    have h2 : 3 * j + 2 < r.length := by omega
    rw [if_pos hc, slice_two r (3 * j) (by omega), List.getElem?_eq_getElem h2]
    simp only []
    have e : 3 * j + 3 = 3 * (j + 1) := by ring
    rw [e, ih (j + 1) _ (by omega)]
    simp [List.range', specGroup, List.getElem?_eq_getElem h2]

theorem readCommandLoop_zero (r : List Byte) (n : Nat) (hn : n ≤ r.length) :
    readCommandLoop r n 0 [] = some ((List.range (n / 3)).map (specGroup r)) := by
  have := readCommandLoop_eq r n hn (n / 3) 0 [] (by omega)
  simpa [List.range_eq_range'] using this

theorem Dev_Tx_ok (d : Dev) (tr : List Event) (w : List Byte) (n : Nat) (r : List Byte)
    (h : (d.Tx tr w (some n)).1 = .ok r) :
    d.Tx tr w (some n) = (.ok r, tr ++ [Event.tx d.Addr w (some n)]) ∧ r.length = n := by
  unfold Dev.Tx at h ⊢
  cases hb : d.Bus.Tx tr d.Addr w (some n) with
  | error e => simp [hb] at h
  | ok sent =>
    simp only [hb] at h ⊢
    injection h with h
    subst h
    exact ⟨rfl, fillBuffer_length _ _⟩

theorem readCommand_ok (s : Sen54) (cmd : Command) (tr : List Event) (r : List Byte)
    (h : (s.dev.Tx tr (PutUint16 cmd.cmd) (some cmd.respBytes)).1 = .ok r) :
    s.readCommand cmd tr = some (((List.range (cmd.respBytes / 3)).map (specGroup r), none),
      if cmd.delay > 0 then
        Sleep (tr ++ [Event.tx s.dev.Addr (PutUint16 cmd.cmd) (some cmd.respBytes)]) cmd.delay
      else tr ++ [Event.tx s.dev.Addr (PutUint16 cmd.cmd) (some cmd.respBytes)]) := by
  obtain ⟨htx, hlen⟩ := Dev_Tx_ok _ _ _ _ _ h
  unfold Sen54.readCommand
  simp only [htx]
  rw [readCommandLoop_zero r cmd.respBytes (by omega)]

theorem crc8_two (a b : Byte) :
    crc8 [a, b] 2 = some (crc8Bits 8 (toByte ((crc8Bits 8 (toByte (CRC8_INIT.val ^^^ a.val))).val ^^^ b.val))) := by
  simp [crc8, crc8Bytes]

theorem specGroup_CrcMatch (r : List Byte) (k : Nat) :
    (specGroup r k).CrcMatch = some (decide (checksumOK r k)) := by
  unfold Response.CrcMatch checksumOK specGroup
  simp [crc8_two, beq_eq_decide]

theorem crcLoop_map (r : List Byte) (l : List Nat) :
    crcLoop (l.map (specGroup r)) = some (l.all (fun k => decide (checksumOK r k))) := by
  induction l with
  | nil => rfl
  | cons k l ih =>
    rw [List.map_cons, crcLoop, specGroup_CrcMatch]
    by_cases hk : checksumOK r k
    · simp [hk, ih]
    · simp [hk]

theorem Uint16_pair (a b : Byte) : Uint16 [a, b] = some (256 * a.val + b.val) := by
  have hb : b.val < 2 ^ 8 := b.isLt
  have := Nat.mul_add_lt_is_or hb a.val
  simp only [Uint16, Nat.shiftLeft_eq]
  rw [Nat.or_comm, Nat.mul_comm, ← this]

theorem fieldData_map (r : List Byte) (n k : Nat) (hk : k < n) :
    fieldData ((List.range n).map (specGroup r)) k = some (rawValue r k) := by
  unfold fieldData
  rw [List.getElem?_map, List.getElem?_range hk]
  simp [Response.GetData, specGroup, Uint16_pair, rawValue]

theorem decode_map (r : List Byte) :
    decode ((List.range 8).map (specGroup r)) = some (scale (rawValue r 0) (rawValue r 1)
      (rawValue r 2) (rawValue r 3) (rawValue r 4) (rawValue r 5) (rawValue r 6)) := by
  unfold decode
  simp only [fieldData_map r 8 _ (by decide : 0 < 8), fieldData_map r 8 _ (by decide : 1 < 8),
    fieldData_map r 8 _ (by decide : 2 < 8), fieldData_map r 8 _ (by decide : 3 < 8),
    fieldData_map r 8 _ (by decide : 4 < 8), fieldData_map r 8 _ (by decide : 5 < 8),
    fieldData_map r 8 _ (by decide : 6 < 8)]

/-- What `ReadMeasurement` returns on a successful bus transaction that left
`r` in the read buffer, when every group's checksum is right. -/
theorem ReadMeasurement_ok (s : Sen54) (tr : List Event) (r : List Byte)
    (h : (s.dev.Tx (tr ++ [Event.lock]) (PutUint16 MeasureCommand.cmd)
      (some MeasureCommand.respBytes)).1 = .ok r)
    (hall : ∀ k < 8, checksumOK r k) :
    s.ReadMeasurement tr = some
      ((scale (rawValue r 0) (rawValue r 1) (rawValue r 2) (rawValue r 3) (rawValue r 4)
          (rawValue r 5) (rawValue r 6), none), measureEvents s tr) := by
  unfold Sen54.ReadMeasurement
  rw [readCommand_ok s MeasureCommand _ r h]
  have h8 : MeasureCommand.respBytes / 3 = 8 := rfl
  have hd : MeasureCommand.delay > 0 := by decide
  have : (List.range 8).all (fun k => decide (checksumOK r k)) = true := by
    simp only [List.all_eq_true, List.mem_range, decide_eq_true_eq]
    exact hall
  simp only [h8, if_pos hd, crcLoop_map, decode_map, this]
  simp [measureEvents, Sleep, MeasureCommand]

/-- What `ReadMeasurement` returns on a successful bus transaction that left
`r` in the read buffer, when some group's checksum is wrong. -/
theorem ReadMeasurement_mismatch (s : Sen54) (tr : List Event) (r : List Byte)
    (h : (s.dev.Tx (tr ++ [Event.lock]) (PutUint16 MeasureCommand.cmd)
      (some MeasureCommand.respBytes)).1 = .ok r)
    (hall : ¬ ∀ k < 8, checksumOK r k) :
    s.ReadMeasurement tr = some
      ((SensorData.zero, some "measuerment CRC mismatch"), measureEvents s tr) := by
  unfold Sen54.ReadMeasurement
  rw [readCommand_ok s MeasureCommand _ r h]
  have h8 : MeasureCommand.respBytes / 3 = 8 := rfl
  have hd : MeasureCommand.delay > 0 := by decide
  have : (List.range 8).all (fun k => decide (checksumOK r k)) = false := by
    rw [← Bool.not_eq_true]
    simp only [List.all_eq_true, List.mem_range, decide_eq_true_eq]
    exact hall
  simp only [h8, if_pos hd, crcLoop_map, decode_map, this]
  simp [measureEvents, Sleep, MeasureCommand]

theorem rawValue_lt (r : List Byte) (k : Nat) : rawValue r k < 65536 := by
  have h0 := (r.getD (3 * k) 0).isLt
  have h1 := (r.getD (3 * k + 1) 0).isLt
  unfold rawValue
  omega

theorem toInt16_eq_specSigned {u : Nat} (h : u < 65536) : toInt16 u = specSigned u := by
  simp [toInt16, specSigned, Nat.mod_eq_of_lt h]

/-- A successful `ReadMeasurement` returns the scaled raw values of groups 0..6. -/
theorem ReadMeasurement_success (s : Sen54) (tr : List Event) (r : List Byte)
    (h : (s.dev.Tx (tr ++ [Event.lock]) (PutUint16 MeasureCommand.cmd)
      (some MeasureCommand.respBytes)).1 = .ok r)
    (d : SensorData) (tr1 : List Event)
    (hs : s.ReadMeasurement tr = some ((d, none), tr1)) :
    d = scale (rawValue r 0) (rawValue r 1) (rawValue r 2) (rawValue r 3) (rawValue r 4)
      (rawValue r 5) (rawValue r 6) := by
  by_cases hall : ∀ k < 8, checksumOK r k
  · rw [ReadMeasurement_ok s tr r h hall] at hs
    simp only [Option.some.injEq, Prod.mk.injEq] at hs
    exact hs.1.1.symm
  · rw [ReadMeasurement_mismatch s tr r h hall] at hs
    simp at hs

theorem specSigned_bounds {u : Nat} (h : u < 65536) :
    -32768 ≤ specSigned u ∧ specSigned u ≤ 32767 := by
  unfold specSigned
  split <;> omega

theorem specSigned_neg {u : Nat} (h : u < 65536) (hu : 32768 ≤ u) : specSigned u < 0 := by
  unfold specSigned
  split <;> omega

theorem groups_flatten (r : List Byte) (h : r.length = 24) :
    ((List.range 8).map (specGroup r)).flatMap (fun x => x.data ++ [x.crc]) = r := by
  have hr : List.range 8 = [0, 1, 2, 3, 4, 5, 6, 7] := rfl
  have hget : ∀ j (hj : j < r.length), r.getD j 0 = r[j] :=
    fun j hj => List.getD_eq_getElem r 0 hj
  rw [hr]
  apply List.ext_getElem
  · simp [specGroup, h]
  · intro i h1 h2
    have hi : i < 24 := by omega
    interval_cases i <;> simp [specGroup, hget, h]

theorem Dev_Tx_error (d : Dev) (tr : List Event) (w : List Byte) (r : Option Nat) (e : String)
    (h : (d.Tx tr w r).1 = .error e) :
    d.Tx tr w r = (.error e, tr ++ [Event.tx d.Addr w r]) := by
  unfold Dev.Tx at h ⊢
  cases hb : d.Bus.Tx tr d.Addr w r with
  | error e1 =>
    simp only [hb] at h ⊢
    injection h with h
    subst h
    rfl
  | ok sent => simp [hb] at h

theorem Dev_Tx_cases (d : Dev) (tr : List Event) (w : List Byte) (r : Option Nat) :
    (∃ e, d.Tx tr w r = (.error e, tr ++ [Event.tx d.Addr w r]))
      ∨ ∃ b, d.Tx tr w r = (.ok b, tr ++ [Event.tx d.Addr w r]) ∧ b.length = r.getD 0 := by
  unfold Dev.Tx
  cases hb : d.Bus.Tx tr d.Addr w r with
  | error e => exact Or.inl ⟨e, rfl⟩
  | ok sent => exact Or.inr ⟨_, rfl, fillBuffer_length _ _⟩

theorem sendCommand_error (s : Sen54) (cmd : Command) (tr : List Event) (e : String)
    (h : (s.dev.Tx tr (PutUint16 cmd.cmd) none).1 = .error e) :
    s.sendCommand cmd tr = (some ("error while " ++ cmd.desc ++ ": " ++ e),
      tr ++ [Event.tx s.dev.Addr (PutUint16 cmd.cmd) none]) := by
  unfold Sen54.sendCommand
  simp only [Dev_Tx_error _ _ _ _ _ h]

theorem sendCommand_ok (s : Sen54) (cmd : Command) (tr : List Event) (b : List Byte)
    (h : (s.dev.Tx tr (PutUint16 cmd.cmd) none).1 = .ok b) :
    s.sendCommand cmd tr = (none,
      tr ++ [Event.tx s.dev.Addr (PutUint16 cmd.cmd) none]
        ++ (if cmd.delay > 0 then [Event.sleep cmd.delay] else [])) := by
  unfold Sen54.sendCommand
  rcases Dev_Tx_cases s.dev tr (PutUint16 cmd.cmd) none with ⟨e, he⟩ | ⟨b1, hb1, _⟩
  · rw [he] at h; simp at h
  · simp only [hb1]
    by_cases hd : cmd.delay > 0
    · simp [hd, Sleep]
    · simp [hd]

theorem readCommand_error (s : Sen54) (cmd : Command) (tr : List Event) (e : String)
    (h : (s.dev.Tx tr (PutUint16 cmd.cmd) (some cmd.respBytes)).1 = .error e) :
    s.readCommand cmd tr = some (([], some ("error while " ++ cmd.desc ++ ": " ++ e)),
      tr ++ [Event.tx s.dev.Addr (PutUint16 cmd.cmd) (some cmd.respBytes)]) := by
  unfold Sen54.readCommand
  simp only [Dev_Tx_error _ _ _ _ _ h]

/-- Every call of `readCommand` returns: either the bus error, or the framed
groups of the read buffer with a nil error. -/
theorem readCommand_cases (s : Sen54) (cmd : Command) (tr : List Event) :
    (∃ e, (s.dev.Tx tr (PutUint16 cmd.cmd) (some cmd.respBytes)).1 = .error e
        ∧ s.readCommand cmd tr = some (([], some ("error while " ++ cmd.desc ++ ": " ++ e)),
            tr ++ [Event.tx s.dev.Addr (PutUint16 cmd.cmd) (some cmd.respBytes)]))
      ∨ ∃ r, (s.dev.Tx tr (PutUint16 cmd.cmd) (some cmd.respBytes)).1 = .ok r
        ∧ r.length = cmd.respBytes
        ∧ s.readCommand cmd tr = some (((List.range (cmd.respBytes / 3)).map (specGroup r), none),
            tr ++ [Event.tx s.dev.Addr (PutUint16 cmd.cmd) (some cmd.respBytes)]
              ++ (if cmd.delay > 0 then [Event.sleep cmd.delay] else [])) := by
  rcases Dev_Tx_cases s.dev tr (PutUint16 cmd.cmd) (some cmd.respBytes) with ⟨e, he⟩ | ⟨r, hr, hl⟩
  · have h1 : (s.dev.Tx tr (PutUint16 cmd.cmd) (some cmd.respBytes)).1 = .error e := by rw [he]
    exact Or.inl ⟨e, h1, readCommand_error s cmd tr e h1⟩
  · have h1 : (s.dev.Tx tr (PutUint16 cmd.cmd) (some cmd.respBytes)).1 = .ok r := by rw [hr]
    refine Or.inr ⟨r, h1, hl, ?_⟩
    rw [readCommand_ok s cmd tr r h1]
    by_cases hd : cmd.delay > 0
    · simp [hd, Sleep]
    · simp [hd]

theorem groups_flatten_take (r : List Byte) :
    ∀ m, 3 * m ≤ r.length →
      ((List.range m).map (specGroup r)).flatMap (fun x => x.data ++ [x.crc])
        = r.take (3 * m) := by
  intro m
  induction m with
  | zero => intro _; simp
  | succ m ih =>
    intro hm
    have h0 : 3 * m < r.length := by omega
    have h1 : 3 * m + 1 < r.length := by omega
    have h2 : 3 * m + 2 < r.length := by omega
    have e : 3 * (m + 1) = 3 * m + 3 := by ring
    have ht : List.take 3 (List.drop (3 * m) r) = [r[3 * m], r[3 * m + 1], r[3 * m + 2]] := by
      rw [List.drop_eq_getElem_cons h0, List.drop_eq_getElem_cons h1,
        List.drop_eq_getElem_cons h2]
      rfl
    rw [List.range_succ, List.map_append, List.flatMap_append, ih (by omega), e, List.take_add,
      ht]
    simp [specGroup, List.getElem?_eq_getElem h0, List.getElem?_eq_getElem h1,
      List.getElem?_eq_getElem h2]

theorem PutUint16_val (v : Nat) (h : v < 65536) :
    (PutUint16 v).map Fin.val = [v >>> 8, v &&& 0xFF] := by
  have h1 : v >>> 8 < 256 := by
    rw [Nat.shiftRight_eq_div_pow]
    omega
  have h2 : v &&& 0xFF = v % 256 := Nat.and_pow_two_sub_one_eq_mod v 8
  simp [PutUint16, toByte, Nat.mod_eq_of_lt h1, h2]

theorem Dev_Tx_of_bus_ok (d : Dev) (tr : List Event) (w : List Byte) (r : Option Nat)
    (sent : List Byte) (h : d.Bus.Tx tr d.Addr w r = .ok sent) :
    (d.Tx tr w r).1 = .ok (fillBuffer (r.getD 0) sent) := by
  unfold Dev.Tx
  rw [h]

theorem getD_of_take_eq (r r2 : List Byte) (n j : Nat) (hj : j < n)
    (h : r.take n = r2.take n) : r.getD j 0 = r2.getD j 0 := by
  have e1 : r[j]? = (r.take n)[j]? := (List.getElem?_take_of_lt hj).symm
  have e2 : r2[j]? = (r2.take n)[j]? := (List.getElem?_take_of_lt hj).symm
  rw [List.getD_eq_getElem?_getD, List.getD_eq_getElem?_getD, e1, e2, h]

theorem rawValue_of_take_eq (r r2 : List Byte) (k : Nat) (hk : k < 7)
    (h : r.take 20 = r2.take 20) : rawValue r k = rawValue r2 k := by
  unfold rawValue
  rw [getD_of_take_eq r r2 20 (3 * k) (by omega) h,
    getD_of_take_eq r r2 20 (3 * k + 1) (by omega) h]

theorem scale_zero : scale 0 0 0 0 0 0 0 = SensorData.mk 0 0 0 0 0 0 0 := by
  simp [scale, toInt16, divFloat64, mulFloat64, round64_zero]

/-- `ReadMeasurement` never panics. -/
theorem ReadMeasurement_total (s : Sen54) (tr : List Event) :
    ∃ d err t, s.ReadMeasurement tr = some ((d, err), t) := by
  rcases readCommand_cases s MeasureCommand (tr ++ [Event.lock]) with ⟨e, _, he⟩ | ⟨r, hr, _, _⟩
  · unfold Sen54.ReadMeasurement
    rw [he]
    exact ⟨_, _, _, rfl⟩
  · by_cases hall : ∀ k < 8, checksumOK r k
    · exact ⟨_, _, _, ReadMeasurement_ok s tr r hr hall⟩
    · exact ⟨_, _, _, ReadMeasurement_mismatch s tr r hr hall⟩

theorem crc8Bytes_append (d : List Byte) (c : Byte) :
    ∀ (n i : Nat) (crc : Byte), i + n = d.length →
      crc8Bytes (d ++ [c]) (n + 1) i crc
        = (crc8Bytes d n i crc).bind
            (fun x => some (crc8Bits 8 (toByte (x.val ^^^ c.val)))) := by
  intro n
  induction n with
  | zero =>
    intro i crc hi
    have hi2 : i = d.length := by omega
    subst hi2
    simp [crc8Bytes]
  | succ n ih =>
    intro i crc hi
    have hlt : i < d.length := by omega
    rw [crc8Bytes, List.getElem?_append_left hlt, List.getElem?_eq_getElem hlt]
    simp only []
    rw [ih (i + 1) _ (by omega)]
    conv_rhs => rw [crc8Bytes, List.getElem?_eq_getElem hlt]

theorem crc8_total (d : List Byte) : ∃ c, crc8 d d.length = some c := by
  have h := crc8Bytes_eq d d.length 0 CRC8_INIT (by omega)
  unfold crc8
  cases hc : crc8Bytes d d.length 0 CRC8_INIT with
  | none => rw [hc] at h; simp at h
  | some c => exact ⟨c, rfl⟩

set_option maxRecDepth 100000 in
theorem crc8Bits_eight_eq_zero : ∀ y : Byte, crc8Bits 8 y = 0 → y = 0 := by
  decide

theorem crc8_three (a b c : Byte) :
    crc8 [a, b, c] 3 = (crc8 [a, b] 2).bind
      (fun x => some (crc8Bits 8 (toByte (x.val ^^^ c.val)))) :=
  crc8Bytes_append [a, b] c 2 0 CRC8_INIT rfl

theorem toByte_xor_eq_zero (x c : Byte) : toByte (x.val ^^^ c.val) = 0 ↔ x = c := by
  constructor
  · intro h
    have hv := congrArg Fin.val h
    rw [toByte_val_of_lt (xor_lt_256 x.isLt c.isLt)] at hv
    exact Fin.ext (Nat.xor_eq_zero.1 hv)
  · intro h
    subst h
    apply Fin.ext
    rw [toByte_val_of_lt (xor_lt_256 x.isLt x.isLt), Nat.xor_self]
    rfl

theorem CrcMatch_pair_iff (a b c : Byte) :
    (Response.mk [a, b] c).CrcMatch = some true ↔ crc8 [a, b] 2 = some c := by
  unfold Response.CrcMatch
  simp only [List.length_cons, List.length_nil]
  obtain ⟨x, hx⟩ := crc8_total [a, b]
  have hx2 : crc8 [a, b] 2 = some x := hx
  have e : (0 + 1 + 1) % 65536 = 2 := rfl
  rw [e, hx2]
  simp

theorem divFloat64_le_neg (n : ℤ) (hn : n ≤ -1) (c : ℚ) (hc : 0 < c) (hc2 : c ≤ 200) :
    divFloat64 n c ≤ -(2 : ℚ) ^ (-8 : ℤ) := by
  unfold divFloat64
  apply round64_le_neg _ _ (by norm_num)
  have h1 : (n : ℚ) ≤ -1 := by exact_mod_cast hn
  have h2 : (n : ℚ) / c ≤ -1 / c := div_le_div_of_nonneg_right h1 (le_of_lt hc)
  have h3 : (2 : ℚ) ^ (-8 : ℤ) ≤ 1 / c := by
    rw [le_div_iff₀ hc]
    have : (2 : ℚ) ^ (-8 : ℤ) = 1 / 256 := by norm_num
    rw [this]
    linarith
  have h4 : -1 / c = -(1 / c) := by ring
  linarith

theorem divFloat64_error (n : ℤ) (c : ℚ) (hc : 0 < c) (hc2 : c ≤ 200) :
    |divFloat64 n c - (n : ℚ) / c| ≤ |(n : ℚ) / c| / 2 ^ 53 :=
  round64_error_or _ (int_div_normal n c hc hc2)

theorem divFloat64_nonneg (u : ℕ) (c : ℚ) (hc : 0 < c) : 0 ≤ divFloat64 (u : ℚ) c :=
  round64_nonneg _ (div_nonneg (Nat.cast_nonneg u) (le_of_lt hc))

theorem round64_6553_5 : round64 (65535 / 10) = 13107 / 2 := by
  rw [round64_eval (65535 / 10) 12 7205649452630016 (by norm_num [abs_of_pos])
    (by norm_num [abs_of_pos]) (by norm_num) (by norm_num [abs_lt])]
  norm_num

theorem round64_neg_one_200th : round64 (-1 / 200) = -5764607523034235 / 2 ^ 60 := by
  rw [round64_eval (-1 / 200) (-8) (-5764607523034235) (by norm_num [abs_of_neg])
    (by norm_num [abs_of_neg]) (by norm_num) (by norm_num [abs_lt])]
  norm_num

theorem round64_45 : round64 (4500 / 100) = 45 := by
  rw [round64_eval (4500 / 100) 5 6333186975989760 (by norm_num [abs_of_pos])
    (by norm_num [abs_of_pos]) (by norm_num) (by norm_num [abs_lt])]
  norm_num

theorem round64_4500 : round64 (100 * 45) = 4500 := by
  rw [round64_eval (100 * 45) 12 4947802324992000 (by norm_num [abs_of_pos])
    (by norm_num [abs_of_pos]) (by norm_num) (by norm_num [abs_lt])]
  norm_num

/-! ## Theorems -/

/-- C1: for every byte sequence `data` and every `count ≤ len(data)`,
`crc8(data, count)` returns, without panicking, the checksum the
specification describes of the first `count` bytes (initial value `0xFF`,
polynomial `0x31`, most significant bit first, no reflection, no final
exclusive-or); the checksum of the empty sequence is `0xFF`. -/
theorem crc8_refines_spec (data : List Byte) (count : Nat) (h : count ≤ data.length) :
    (crc8 data count).map Fin.val = some (specCrc8 (data.take count))
      ∧ crc8 [] 0 = some 0xFF := by
  refine ⟨?_, rfl⟩
  have := crc8Bytes_eq data count 0 CRC8_INIT (by omega)
  simpa [crc8, specCrc8, CRC8_INIT] using this

theorem crc8_refines_spec_witness :
    (2 : Nat) ≤ ([0xBE, 0xEF, 0x00] : List Byte).length
      ∧ (crc8 [0xBE, 0xEF, 0x00] 2).map Fin.val = some (specCrc8 (List.take 2 [0xBE, 0xEF, 0x00]))
      ∧ crc8 [] 0 = some 0xFF :=
  ⟨by decide, crc8_refines_spec [0xBE, 0xEF, 0x00] 2 (by decide)⟩

/-- C2: on a successful bus transaction that leaves the 24 bytes `r` in the
read buffer, if for some field `k` in 0..6 the checksum byte at offset
`3k+2` differs from `crc8` of the two value bytes at offsets `3k`, `3k+1`,
then `ReadMeasurement` returns a non-nil error together with the zero-valued
`SensorData` (all seven readings 0). -/
theorem ReadMeasurement_bad_field_gives_zero (s : Sen54) (tr : List Event) (r : List Byte)
    (h : (s.dev.Tx (tr ++ [Event.lock]) (PutUint16 MeasureCommand.cmd)
      (some MeasureCommand.respBytes)).1 = .ok r)
    (k : Nat) (hk : k < 7)
    (hbad : crc8 [r.getD (3 * k) 0, r.getD (3 * k + 1) 0] 2 ≠ some (r.getD (3 * k + 2) 0)) :
    r.length = 24 ∧ ∃ err tr1,
      s.ReadMeasurement tr = some ((SensorData.mk 0 0 0 0 0 0 0, some err), tr1) := by
  refine ⟨(Dev_Tx_ok _ _ _ _ _ h).2, "measuerment CRC mismatch", measureEvents s tr, ?_⟩
  exact ReadMeasurement_mismatch s tr r h (fun hall => hbad (hall k (by omega)))

theorem ReadMeasurement_bad_field_gives_zero_witness :
    ((New (busOf field3Bad)).dev.Tx ([] ++ [Event.lock]) (PutUint16 MeasureCommand.cmd)
        (some MeasureCommand.respBytes)).1 = .ok field3Bad
      ∧ 3 < 7
      ∧ crc8 [field3Bad.getD (3 * 3) 0, field3Bad.getD (3 * 3 + 1) 0] 2
          ≠ some (field3Bad.getD (3 * 3 + 2) 0)
      ∧ field3Bad.length = 24
      ∧ ∃ err tr1, (New (busOf field3Bad)).ReadMeasurement []
          = some ((SensorData.mk 0 0 0 0 0 0 0, some err), tr1) :=
  ⟨rfl, by decide, by decide,
    ReadMeasurement_bad_field_gives_zero (New (busOf field3Bad)) [] field3Bad rfl 3
      (by decide) (by decide)⟩

/-- C3, counterexample: the device sends seven groups with a right checksum
and an eighth group `00 00 00`; the checksums of fields 0..6 are all right,
and `ReadMeasurement` still rejects the response with the checksum error. -/
theorem ReadMeasurement_seven_fields_counterexample :
    ((New (busOf lastGroupBad)).dev.Tx ([] ++ [Event.lock]) (PutUint16 MeasureCommand.cmd)
        (some MeasureCommand.respBytes)).1 = .ok lastGroupBad
      ∧ (∀ k < 7, crc8 [lastGroupBad.getD (3 * k) 0, lastGroupBad.getD (3 * k + 1) 0] 2
          = some (lastGroupBad.getD (3 * k + 2) 0))
      ∧ (New (busOf lastGroupBad)).ReadMeasurement []
          = some ((SensorData.zero, some "measuerment CRC mismatch"),
              measureEvents (New (busOf lastGroupBad)) []) :=
  ⟨rfl, by decide,
    ReadMeasurement_mismatch (New (busOf lastGroupBad)) [] lastGroupBad rfl (by decide)⟩

/-- C3, amended: on a successful bus transaction that leaves the 24 bytes `r`
in the read buffer, `ReadMeasurement` rejects with the checksum error if and
only if at least one of the 8 group checksums (groups 0..7, bytes 0..23) is
wrong; whenever the checksums of all 8 groups are right it returns a
`SensorData` and a nil error. -/
theorem ReadMeasurement_rejects_iff_some_group_bad (s : Sen54) (tr : List Event)
    (r : List Byte)
    (h : (s.dev.Tx (tr ++ [Event.lock]) (PutUint16 MeasureCommand.cmd)
      (some MeasureCommand.respBytes)).1 = .ok r) :
    ((∃ d tr1, s.ReadMeasurement tr = some ((d, some "measuerment CRC mismatch"), tr1))
        ↔ ∃ k < 8, crc8 [r.getD (3 * k) 0, r.getD (3 * k + 1) 0] 2
            ≠ some (r.getD (3 * k + 2) 0))
      ∧ ((∀ k < 8, crc8 [r.getD (3 * k) 0, r.getD (3 * k + 1) 0] 2
            = some (r.getD (3 * k + 2) 0))
          → ∃ d tr1, s.ReadMeasurement tr = some ((d, none), tr1)) := by
  constructor
  · constructor
    · rintro ⟨d, tr1, hd⟩
      by_contra hno
      have hall : ∀ k < 8, checksumOK r k := by
        intro k hk
        by_contra hk2
        exact hno ⟨k, hk, hk2⟩
      rw [ReadMeasurement_ok s tr r h hall] at hd
      simp at hd
    · rintro ⟨k, hk, hbad⟩
      exact ⟨_, _, ReadMeasurement_mismatch s tr r h (fun hall => hbad (hall k hk))⟩
  · intro hall
    exact ⟨_, _, ReadMeasurement_ok s tr r h hall⟩

theorem ReadMeasurement_rejects_iff_some_group_bad_witness :
    ((New (busOf lastGroupBad)).dev.Tx ([] ++ [Event.lock]) (PutUint16 MeasureCommand.cmd)
        (some MeasureCommand.respBytes)).1 = .ok lastGroupBad
      ∧ ((∃ d tr1, (New (busOf lastGroupBad)).ReadMeasurement []
            = some ((d, some "measuerment CRC mismatch"), tr1))
        ↔ ∃ k < 8, crc8 [lastGroupBad.getD (3 * k) 0, lastGroupBad.getD (3 * k + 1) 0] 2
            ≠ some (lastGroupBad.getD (3 * k + 2) 0))
      ∧ ((∀ k < 8, crc8 [lastGroupBad.getD (3 * k) 0, lastGroupBad.getD (3 * k + 1) 0] 2
            = some (lastGroupBad.getD (3 * k + 2) 0))
          → ∃ d tr1, (New (busOf lastGroupBad)).ReadMeasurement [] = some ((d, none), tr1)) :=
  ⟨rfl, ReadMeasurement_rejects_iff_some_group_bad (New (busOf lastGroupBad)) [] lastGroupBad rfl⟩

/-- C4: whenever `ReadMeasurement` succeeds on a response buffer `r`, the
four particulate readings are the unsigned big-endian 16-bit field values
divided by 10 in `float64`: `PM1_0 = (256*r[0] + r[1]) / 10`,
`PM2_5 = (256*r[3] + r[4]) / 10`, `PM4 = (256*r[6] + r[7]) / 10`,
`PM10 = (256*r[9] + r[10]) / 10`, each within the `float64` rounding error
of the exact quotient; the raw value is an unsigned number in 0..65535, so
no reading is negative and the raw value `0xFFFF` decodes to 6553.5. -/
theorem ReadMeasurement_particulates (s : Sen54) (tr : List Event) (r : List Byte)
    (h : (s.dev.Tx (tr ++ [Event.lock]) (PutUint16 MeasureCommand.cmd)
      (some MeasureCommand.respBytes)).1 = .ok r)
    (d : SensorData) (tr1 : List Event)
    (hs : s.ReadMeasurement tr = some ((d, none), tr1)) :
    (d.PM1_0 = divFloat64 ((256 * (r.getD 0 0).val + (r.getD 1 0).val : Nat) : ℚ) 10
        ∧ d.PM2_5 = divFloat64 ((256 * (r.getD 3 0).val + (r.getD 4 0).val : Nat) : ℚ) 10
        ∧ d.PM4 = divFloat64 ((256 * (r.getD 6 0).val + (r.getD 7 0).val : Nat) : ℚ) 10
        ∧ d.PM10 = divFloat64 ((256 * (r.getD 9 0).val + (r.getD 10 0).val : Nat) : ℚ) 10)
      ∧ (|d.PM1_0 - ((256 * (r.getD 0 0).val + (r.getD 1 0).val : Nat) : ℚ) / 10|
            ≤ ((256 * (r.getD 0 0).val + (r.getD 1 0).val : Nat) : ℚ) / 10 / 2 ^ 53
        ∧ |d.PM2_5 - ((256 * (r.getD 3 0).val + (r.getD 4 0).val : Nat) : ℚ) / 10|
            ≤ ((256 * (r.getD 3 0).val + (r.getD 4 0).val : Nat) : ℚ) / 10 / 2 ^ 53
        ∧ |d.PM4 - ((256 * (r.getD 6 0).val + (r.getD 7 0).val : Nat) : ℚ) / 10|
            ≤ ((256 * (r.getD 6 0).val + (r.getD 7 0).val : Nat) : ℚ) / 10 / 2 ^ 53
        ∧ |d.PM10 - ((256 * (r.getD 9 0).val + (r.getD 10 0).val : Nat) : ℚ) / 10|
            ≤ ((256 * (r.getD 9 0).val + (r.getD 10 0).val : Nat) : ℚ) / 10 / 2 ^ 53)
      ∧ (0 ≤ d.PM1_0 ∧ 0 ≤ d.PM2_5 ∧ 0 ≤ d.PM4 ∧ 0 ≤ d.PM10)
      ∧ (256 * (r.getD 0 0).val + (r.getD 1 0).val ≤ 65535)
      ∧ (256 * (r.getD 0 0).val + (r.getD 1 0).val = 0xFFFF → d.PM1_0 = 6553.5) := by
  have hd := ReadMeasurement_success s tr r h d tr1 hs
  have e0 : d.PM1_0
      = divFloat64 ((256 * (r.getD 0 0).val + (r.getD 1 0).val : Nat) : ℚ) 10 := by
    rw [hd]; rfl
  have e1 : d.PM2_5
      = divFloat64 ((256 * (r.getD 3 0).val + (r.getD 4 0).val : Nat) : ℚ) 10 := by
    rw [hd]; rfl
  have e2 : d.PM4
      = divFloat64 ((256 * (r.getD 6 0).val + (r.getD 7 0).val : Nat) : ℚ) 10 := by
    rw [hd]; rfl
  have e3 : d.PM10
      = divFloat64 ((256 * (r.getD 9 0).val + (r.getD 10 0).val : Nat) : ℚ) 10 := by
    rw [hd]; rfl
  have herr : ∀ u : Nat, |divFloat64 (u : ℚ) 10 - (u : ℚ) / 10| ≤ (u : ℚ) / 10 / 2 ^ 53 := by
    intro u
    have h1 := divFloat64_error (u : ℤ) 10 (by norm_num) (by norm_num)
    have h2 : |((u : ℤ) : ℚ) / 10| = (u : ℚ) / 10 := by
      rw [abs_of_nonneg]
      · norm_num
      · positivity
    rw [h2] at h1
    simpa using h1
  refine ⟨⟨e0, e1, e2, e3⟩, ⟨?_, ?_, ?_, ?_⟩, ⟨?_, ?_, ?_, ?_⟩, ?_, ?_⟩
  · rw [e0]; exact herr _
  · rw [e1]; exact herr _
  · rw [e2]; exact herr _
  · rw [e3]; exact herr _
  · rw [e0]; exact divFloat64_nonneg _ _ (by norm_num)
  · rw [e1]; exact divFloat64_nonneg _ _ (by norm_num)
  · rw [e2]; exact divFloat64_nonneg _ _ (by norm_num)
  · rw [e3]; exact divFloat64_nonneg _ _ (by norm_num)
  · have h0 := (r.getD 0 0).isLt
    have h1 := (r.getD 1 0).isLt
    omega
  · intro hff
    rw [e0, hff]
    unfold divFloat64
    have e : (((0xFFFF : Nat) : ℚ) / 10) = 65535 / 10 := by norm_num
    rw [e, round64_6553_5]
    norm_num

theorem ReadMeasurement_particulates_witness :
    ((New (busOf sampleResponse)).dev.Tx ([] ++ [Event.lock]) (PutUint16 MeasureCommand.cmd)
        (some MeasureCommand.respBytes)).1 = .ok sampleResponse
      ∧ (New (busOf sampleResponse)).ReadMeasurement []
          = some ((scale 65535 1 0 0 4500 65535 32768, none),
              measureEvents (New (busOf sampleResponse)) [])
      ∧ (scale 65535 1 0 0 4500 65535 32768).PM1_0 = 6553.5 :=
  have hs : (New (busOf sampleResponse)).ReadMeasurement []
      = some ((scale 65535 1 0 0 4500 65535 32768, none),
          measureEvents (New (busOf sampleResponse)) []) :=
    ReadMeasurement_ok (New (busOf sampleResponse)) [] sampleResponse rfl (by decide)
  ⟨rfl, hs,
    (ReadMeasurement_particulates (New (busOf sampleResponse)) [] sampleResponse rfl
      _ _ hs).2.2.2.2 (by decide)⟩

/-- C5: whenever `ReadMeasurement` succeeds on a response buffer `r`, `Temp`
equals `s5 / 200` and `VOC` equals `s6 / 10` in `float64`, each within the
`float64` rounding error of the exact quotient, where `s5` and `s6` are the
big-endian 16-bit values of field 5 (bytes 15, 16) and field 6 (bytes 18, 19)
read as two's-complement numbers in -32768..32767 (raw `u` maps to `u` when
`u < 32768` and to `u - 65536` otherwise). -/
theorem ReadMeasurement_temp_voc (s : Sen54) (tr : List Event) (r : List Byte)
    (h : (s.dev.Tx (tr ++ [Event.lock]) (PutUint16 MeasureCommand.cmd)
      (some MeasureCommand.respBytes)).1 = .ok r)
    (d : SensorData) (tr1 : List Event)
    (hs : s.ReadMeasurement tr = some ((d, none), tr1)) :
    (d.Temp = divFloat64 (specSigned (256 * (r.getD 15 0).val + (r.getD 16 0).val) : ℚ) 200
        ∧ d.VOC
          = divFloat64 (specSigned (256 * (r.getD 18 0).val + (r.getD 19 0).val) : ℚ) 10)
      ∧ (|d.Temp - (specSigned (256 * (r.getD 15 0).val + (r.getD 16 0).val) : ℚ) / 200|
            ≤ |(specSigned (256 * (r.getD 15 0).val + (r.getD 16 0).val) : ℚ) / 200| / 2 ^ 53
        ∧ |d.VOC - (specSigned (256 * (r.getD 18 0).val + (r.getD 19 0).val) : ℚ) / 10|
            ≤ |(specSigned (256 * (r.getD 18 0).val + (r.getD 19 0).val) : ℚ) / 10| / 2 ^ 53)
      ∧ (-32768 ≤ specSigned (256 * (r.getD 15 0).val + (r.getD 16 0).val)
          ∧ specSigned (256 * (r.getD 15 0).val + (r.getD 16 0).val) ≤ 32767)
      ∧ (-32768 ≤ specSigned (256 * (r.getD 18 0).val + (r.getD 19 0).val)
          ∧ specSigned (256 * (r.getD 18 0).val + (r.getD 19 0).val) ≤ 32767) := by
  have hd := ReadMeasurement_success s tr r h d tr1 hs
  have l5 : 256 * (r.getD 15 0).val + (r.getD 16 0).val < 65536 := rawValue_lt r 5
  have l6 : 256 * (r.getD 18 0).val + (r.getD 19 0).val < 65536 := rawValue_lt r 6
  have e5 : d.Temp
      = divFloat64 (specSigned (256 * (r.getD 15 0).val + (r.getD 16 0).val) : ℚ) 200 := by
    rw [← toInt16_eq_specSigned l5, hd]; rfl
  have e6 : d.VOC
      = divFloat64 (specSigned (256 * (r.getD 18 0).val + (r.getD 19 0).val) : ℚ) 10 := by
    rw [← toInt16_eq_specSigned l6, hd]; rfl
  refine ⟨⟨e5, e6⟩, ⟨?_, ?_⟩, specSigned_bounds l5, specSigned_bounds l6⟩
  · rw [e5]; exact divFloat64_error _ 200 (by norm_num) (by norm_num)
  · rw [e6]; exact divFloat64_error _ 10 (by norm_num) (by norm_num)

theorem ReadMeasurement_temp_voc_witness :
    ((New (busOf sampleResponse)).dev.Tx ([] ++ [Event.lock]) (PutUint16 MeasureCommand.cmd)
        (some MeasureCommand.respBytes)).1 = .ok sampleResponse
      ∧ (New (busOf sampleResponse)).ReadMeasurement []
          = some ((scale 65535 1 0 0 4500 65535 32768, none),
              measureEvents (New (busOf sampleResponse)) [])
      ∧ specSigned (256 * (sampleResponse.getD 15 0).val + (sampleResponse.getD 16 0).val) = -1
      ∧ (scale 65535 1 0 0 4500 65535 32768).Temp = divFloat64 (-1) 200
      ∧ divFloat64 (-1) 200 = -5764607523034235 / 2 ^ 60
      ∧ (scale 65535 1 0 0 4500 65535 32768).VOC
          = divFloat64 (specSigned (256 * (sampleResponse.getD 18 0).val
              + (sampleResponse.getD 19 0).val) : ℚ) 10 :=
  have hs : (New (busOf sampleResponse)).ReadMeasurement []
      = some ((scale 65535 1 0 0 4500 65535 32768, none),
          measureEvents (New (busOf sampleResponse)) []) :=
    ReadMeasurement_ok (New (busOf sampleResponse)) [] sampleResponse rfl (by decide)
  have ht := ReadMeasurement_temp_voc (New (busOf sampleResponse)) [] sampleResponse rfl
    _ _ hs
  have hm : specSigned (256 * (sampleResponse.getD 15 0).val
      + (sampleResponse.getD 16 0).val) = -1 := by decide
  ⟨rfl, hs, hm, by rw [ht.1.1, hm]; norm_num, round64_neg_one_200th, ht.1.2⟩

/-- C6, the code at the failing input: the humidity field of the response is
`11 94`, the raw value 4500, with a right checksum; `ReadMeasurement`
succeeds and the returned `Humidity` is 4500, not 4500 / 100 = 45. -/
theorem ReadMeasurement_humidity_at_4500 :
    ((New (busOf sampleResponse)).dev.Tx ([] ++ [Event.lock]) (PutUint16 MeasureCommand.cmd)
        (some MeasureCommand.respBytes)).1 = .ok sampleResponse
      ∧ 256 * (sampleResponse.getD 12 0).val + (sampleResponse.getD 13 0).val = 4500
      ∧ ∃ d tr1, (New (busOf sampleResponse)).ReadMeasurement [] = some ((d, none), tr1)
          ∧ d.Humidity = 4500
          ∧ d.Humidity ≠ divFloat64 (specSigned 4500) 100
          ∧ d.Humidity ≠ 45 := by
  have hh : (scale 65535 1 0 0 4500 65535 32768).Humidity = 4500 := by
    have e : (scale 65535 1 0 0 4500 65535 32768).Humidity
        = round64 (100 * round64 (4500 / 100)) := by
      simp [scale, toInt16, divFloat64, mulFloat64]
    rw [e, round64_45, round64_4500]
  have h45 : divFloat64 (specSigned 4500) 100 = 45 := by
    have e : divFloat64 (specSigned 4500) 100 = round64 (4500 / 100) := by
      simp [specSigned, divFloat64]
    rw [e, round64_45]
  refine ⟨rfl, by decide, scale 65535 1 0 0 4500 65535 32768,
    measureEvents (New (busOf sampleResponse)) [],
    ReadMeasurement_ok (New (busOf sampleResponse)) [] sampleResponse rfl (by decide),
    hh, ?_, ?_⟩
  · rw [hh, h45]; norm_num
  · rw [hh]; norm_num

/-- C7: on every response buffer on which `ReadMeasurement` succeeds, if the
raw big-endian 16-bit value of the humidity field (field 4), of the
temperature field (field 5) or of the VOC field (field 6) has its top bit
set (raw at least `0x8000`), then the decoded `Humidity`, `Temp` or `VOC` is
strictly negative. -/
theorem ReadMeasurement_signed_negative (s : Sen54) (tr : List Event) (r : List Byte)
    (h : (s.dev.Tx (tr ++ [Event.lock]) (PutUint16 MeasureCommand.cmd)
      (some MeasureCommand.respBytes)).1 = .ok r)
    (d : SensorData) (tr1 : List Event)
    (hs : s.ReadMeasurement tr = some ((d, none), tr1)) :
    (0x8000 ≤ 256 * (r.getD 12 0).val + (r.getD 13 0).val → d.Humidity < 0)
      ∧ (0x8000 ≤ 256 * (r.getD 15 0).val + (r.getD 16 0).val → d.Temp < 0)
      ∧ (0x8000 ≤ 256 * (r.getD 18 0).val + (r.getD 19 0).val → d.VOC < 0) := by
  have hd := ReadMeasurement_success s tr r h d tr1 hs
  have l4 : 256 * (r.getD 12 0).val + (r.getD 13 0).val < 65536 := rawValue_lt r 4
  have l5 : 256 * (r.getD 15 0).val + (r.getD 16 0).val < 65536 := rawValue_lt r 5
  have l6 : 256 * (r.getD 18 0).val + (r.getD 19 0).val < 65536 := rawValue_lt r 6
  have e4 : d.Humidity = mulFloat64 100
      (divFloat64 (specSigned (256 * (r.getD 12 0).val + (r.getD 13 0).val) : ℚ) 100) := by
    rw [← toInt16_eq_specSigned l4, hd]; rfl
  have e5 : d.Temp
      = divFloat64 (specSigned (256 * (r.getD 15 0).val + (r.getD 16 0).val) : ℚ) 200 := by
    rw [← toInt16_eq_specSigned l5, hd]; rfl
  have e6 : d.VOC
      = divFloat64 (specSigned (256 * (r.getD 18 0).val + (r.getD 19 0).val) : ℚ) 10 := by
    rw [← toInt16_eq_specSigned l6, hd]; rfl
  have hp : (0 : ℚ) < 2 ^ (-8 : ℤ) := by positivity
  refine ⟨fun hu => ?_, fun hu => ?_, fun hu => ?_⟩
  · have hn := specSigned_neg l4 hu
    have hx := divFloat64_le_neg _ (Int.le_sub_one_of_lt hn) 100 (by norm_num) (by norm_num)
    rw [e4]
    unfold mulFloat64
    have h8 : (2 : ℚ) ^ (-8 : ℤ) = 1 / 256 := by norm_num
    have h2 : (2 : ℚ) ^ (-2 : ℤ) = 1 / 4 := by norm_num
    have hle := round64_le_neg (100 * divFloat64
      (specSigned (256 * (r.getD 12 0).val + (r.getD 13 0).val) : ℚ) 100) (-2) (by norm_num)
      (by rw [h2]; rw [h8] at hx; linarith)
    rw [h2] at hle
    linarith
  · have hn := specSigned_neg l5 hu
    have hx := divFloat64_le_neg _ (Int.le_sub_one_of_lt hn) 200 (by norm_num) (by norm_num)
    rw [e5]; linarith
  · have hn := specSigned_neg l6 hu
    have hx := divFloat64_le_neg _ (Int.le_sub_one_of_lt hn) 10 (by norm_num) (by norm_num)
    rw [e6]; linarith

theorem ReadMeasurement_signed_negative_witness :
    ((New (busOf negativeResponse)).dev.Tx ([] ++ [Event.lock]) (PutUint16 MeasureCommand.cmd)
        (some MeasureCommand.respBytes)).1 = .ok negativeResponse
      ∧ (New (busOf negativeResponse)).ReadMeasurement []
          = some ((scale 0 0 0 0 65535 32768 65535, none),
              measureEvents (New (busOf negativeResponse)) [])
      ∧ (scale 0 0 0 0 65535 32768 65535).Humidity < 0
      ∧ (scale 0 0 0 0 65535 32768 65535).Temp < 0
      ∧ (scale 0 0 0 0 65535 32768 65535).VOC < 0 :=
  have hs : (New (busOf negativeResponse)).ReadMeasurement []
      = some ((scale 0 0 0 0 65535 32768 65535, none),
          measureEvents (New (busOf negativeResponse)) []) :=
    ReadMeasurement_ok (New (busOf negativeResponse)) [] negativeResponse rfl (by decide)
  have hn := ReadMeasurement_signed_negative (New (busOf negativeResponse)) []
    negativeResponse rfl _ _ hs
  ⟨rfl, hs, hn.1 (by decide), hn.2.1 (by decide), hn.2.2 (by decide)⟩

/-- C8, counterexample: on the response of eight groups `00 00 81` the
framing step of `readCommand(MeasureCommand)` returns 8 fields, not 7. -/
theorem readCommand_measure_counterexample :
    ∃ resp tr1, (New (busOf zeroResponse)).readCommand MeasureCommand []
        = some ((resp, none), tr1) ∧ resp.length = 8 ∧ resp.length ≠ 7 :=
  ⟨_, _, readCommand_ok (New (busOf zeroResponse)) MeasureCommand [] zeroResponse rfl,
    by decide, by decide⟩

/-- C8, amended: for the measure command (expected response of 24 bytes),
the framing step of `readCommand` decomposes the 24-byte response into
exactly 8 fields of 3 bytes each (2 value bytes + 1 checksum byte), which
together are the whole response. -/
theorem readCommand_measure_eight_fields (s : Sen54) (tr : List Event) (r : List Byte)
    (h : (s.dev.Tx tr (PutUint16 MeasureCommand.cmd) (some MeasureCommand.respBytes)).1
      = .ok r) :
    r.length = 24 ∧ ∃ resp tr1, s.readCommand MeasureCommand tr = some ((resp, none), tr1)
      ∧ resp.length = 8
      ∧ (∀ x ∈ resp, x.data.length = 2)
      ∧ resp.flatMap (fun x => x.data ++ [x.crc]) = r := by
  have hlen : r.length = 24 := (Dev_Tx_ok _ _ _ _ _ h).2
  refine ⟨hlen, _, _, readCommand_ok s MeasureCommand tr r h, ?_, ?_, ?_⟩
  · simp [MeasureCommand]
  · intro x hx
    simp only [List.mem_map] at hx
    obtain ⟨k, _, rfl⟩ := hx
    rfl
  · exact groups_flatten r hlen

theorem readCommand_measure_eight_fields_witness :
    ((New (busOf sampleResponse)).dev.Tx [] (PutUint16 MeasureCommand.cmd)
        (some MeasureCommand.respBytes)).1 = .ok sampleResponse
      ∧ sampleResponse.length = 24
      ∧ ∃ resp tr1, (New (busOf sampleResponse)).readCommand MeasureCommand []
          = some ((resp, none), tr1)
        ∧ resp.length = 8
        ∧ (∀ x ∈ resp, x.data.length = 2)
        ∧ resp.flatMap (fun x => x.data ++ [x.crc]) = sampleResponse :=
  ⟨rfl, readCommand_measure_eight_fields (New (busOf sampleResponse)) [] sampleResponse rfl⟩

/-- C9: for every command and every raw response buffer `r` of a successful
transaction, `readCommand` returns its fields with a nil error, and field
`k` is the `k`-th consecutive 3-byte group: its data is exactly the two
bytes `[r[3k], r[3k+1]]`, its crc is `r[3k+2]`, and `GetData` on it returns
the big-endian value `256*r[3k] + r[3k+1]`; the fields are in buffer order
and no group is rejected or altered. -/
theorem readCommand_fields (s : Sen54) (cmd : Command) (tr : List Event) (r : List Byte)
    (h : (s.dev.Tx tr (PutUint16 cmd.cmd) (some cmd.respBytes)).1 = .ok r) :
    ∃ resp tr1, s.readCommand cmd tr = some ((resp, none), tr1)
      ∧ resp.length = cmd.respBytes / 3
      ∧ ∀ k, k < resp.length →
          3 * k + 2 < r.length
          ∧ resp[k]? = some (Response.mk [r.getD (3 * k) 0, r.getD (3 * k + 1) 0]
              (r.getD (3 * k + 2) 0))
          ∧ fieldData resp k = some (256 * (r.getD (3 * k) 0).val + (r.getD (3 * k + 1) 0).val) := by
  have hlen : r.length = cmd.respBytes := (Dev_Tx_ok _ _ _ _ _ h).2
  refine ⟨_, _, readCommand_ok s cmd tr r h, by simp, ?_⟩
  intro k hk
  have hk2 : k < cmd.respBytes / 3 := by simpa using hk
  refine ⟨by omega, ?_, fieldData_map r _ k hk2⟩
  rw [List.getElem?_map, List.getElem?_range hk2]
  rfl

theorem readCommand_fields_witness :
    ((New (busOf sampleResponse)).dev.Tx [] (PutUint16 MeasureCommand.cmd)
        (some MeasureCommand.respBytes)).1 = .ok sampleResponse
      ∧ ∃ resp tr1, (New (busOf sampleResponse)).readCommand MeasureCommand []
          = some ((resp, none), tr1)
        ∧ resp.length = MeasureCommand.respBytes / 3
        ∧ ∀ k, k < resp.length →
            3 * k + 2 < sampleResponse.length
            ∧ resp[k]? = some (Response.mk
                [sampleResponse.getD (3 * k) 0, sampleResponse.getD (3 * k + 1) 0]
                (sampleResponse.getD (3 * k + 2) 0))
            ∧ fieldData resp k = some (256 * (sampleResponse.getD (3 * k) 0).val
                + (sampleResponse.getD (3 * k + 1) 0).val) :=
  ⟨rfl, readCommand_fields (New (busOf sampleResponse)) MeasureCommand [] sampleResponse rfl⟩

/-- C10, counterexample: one response has its first wrong checksum in field
0, another in field 3; `ReadMeasurement` returns the same error text for
both, and the text holds no field index. -/
theorem ReadMeasurement_error_counterexample :
    ¬ checksumOK field0Bad 0
      ∧ ((∀ k < 3, checksumOK field3Bad k) ∧ ¬ checksumOK field3Bad 3)
      ∧ ∃ e0 e3 : String,
          (New (busOf field0Bad)).ReadMeasurement []
            = some ((SensorData.zero, some e0), measureEvents (New (busOf field0Bad)) [])
          ∧ (New (busOf field3Bad)).ReadMeasurement []
            = some ((SensorData.zero, some e3), measureEvents (New (busOf field3Bad)) [])
          ∧ e0 = e3 ∧ e0 = "measuerment CRC mismatch" :=
  ⟨by decide, ⟨by decide, by decide⟩, _, _,
    ReadMeasurement_mismatch (New (busOf field0Bad)) [] field0Bad rfl (by decide),
    ReadMeasurement_mismatch (New (busOf field3Bad)) [] field3Bad rfl (by decide),
    rfl, rfl⟩

/-- C10, amended: when `ReadMeasurement` fails because a group's checksum
does not match, the returned error is the fixed text
"measuerment CRC mismatch": two responses whose wrong checksums are in
groups `i` and `j` get the same error, which names no field index. -/
theorem ReadMeasurement_error_is_fixed (s1 s2 : Sen54) (tr1 tr2 : List Event)
    (r1 r2 : List Byte)
    (h1 : (s1.dev.Tx (tr1 ++ [Event.lock]) (PutUint16 MeasureCommand.cmd)
      (some MeasureCommand.respBytes)).1 = .ok r1)
    (h2 : (s2.dev.Tx (tr2 ++ [Event.lock]) (PutUint16 MeasureCommand.cmd)
      (some MeasureCommand.respBytes)).1 = .ok r2)
    (i j : Nat) (hi : i < 8) (hj : j < 8)
    (hbad1 : crc8 [r1.getD (3 * i) 0, r1.getD (3 * i + 1) 0] 2 ≠ some (r1.getD (3 * i + 2) 0))
    (hbad2 : crc8 [r2.getD (3 * j) 0, r2.getD (3 * j + 1) 0] 2 ≠ some (r2.getD (3 * j + 2) 0)) :
    ∃ d1 d2 t1 t2,
      s1.ReadMeasurement tr1 = some ((d1, some "measuerment CRC mismatch"), t1)
      ∧ s2.ReadMeasurement tr2 = some ((d2, some "measuerment CRC mismatch"), t2) :=
  ⟨_, _, _, _,
    ReadMeasurement_mismatch s1 tr1 r1 h1 (fun hall => hbad1 (hall i hi)),
    ReadMeasurement_mismatch s2 tr2 r2 h2 (fun hall => hbad2 (hall j hj))⟩

theorem ReadMeasurement_error_is_fixed_witness :
    ((New (busOf field0Bad)).dev.Tx ([] ++ [Event.lock]) (PutUint16 MeasureCommand.cmd)
        (some MeasureCommand.respBytes)).1 = .ok field0Bad
      ∧ ((New (busOf field3Bad)).dev.Tx ([] ++ [Event.lock]) (PutUint16 MeasureCommand.cmd)
        (some MeasureCommand.respBytes)).1 = .ok field3Bad
      ∧ ∃ d1 d2 t1 t2,
          (New (busOf field0Bad)).ReadMeasurement []
            = some ((d1, some "measuerment CRC mismatch"), t1)
          ∧ (New (busOf field3Bad)).ReadMeasurement []
            = some ((d2, some "measuerment CRC mismatch"), t2) :=
  ⟨rfl, rfl,
    ReadMeasurement_error_is_fixed (New (busOf field0Bad)) (New (busOf field3Bad)) [] []
      field0Bad field3Bad rfl rfl 0 3 (by decide) (by decide) (by decide) (by decide)⟩

/-- C11, counterexample: a command whose expected response is 4 bytes, not a
multiple of 3; on a successful transaction `readCommand` returns the one
field `00 00 81` with a nil error, and the fourth byte is dropped. -/
theorem readCommand_framing_counterexample :
    fourByteCommand.respBytes % 3 ≠ 0
      ∧ ((New (busOf fourBytes)).dev.Tx [] (PutUint16 fourByteCommand.cmd)
          (some fourByteCommand.respBytes)).1 = .ok fourBytes
      ∧ (New (busOf fourBytes)).readCommand fourByteCommand []
          = some (([Response.mk [0x00, 0x00] 0x81], none),
              [Event.tx SensorAddr [0x00, 0x00] (some 4)]) :=
  ⟨by decide, rfl,
    (readCommand_ok (New (busOf fourBytes)) fourByteCommand [] fourBytes rfl).trans rfl⟩

/-- C11, amended: `readCommand` has no framing error.  For every command and
every successful transaction it returns `respBytes / 3` (rounded down) fields
with a nil error; it never reads outside the buffer, and the fields are the
first `3 * (respBytes / 3)` bytes of the response, so when `respBytes` is not
a multiple of 3 the trailing `respBytes mod 3` bytes are dropped without an
error. -/
theorem readCommand_no_framing_error (s : Sen54) (cmd : Command) (tr : List Event)
    (r : List Byte)
    (h : (s.dev.Tx tr (PutUint16 cmd.cmd) (some cmd.respBytes)).1 = .ok r) :
    r.length = cmd.respBytes
      ∧ ∃ resp tr1, s.readCommand cmd tr = some ((resp, none), tr1)
        ∧ resp.length = cmd.respBytes / 3
        ∧ resp.flatMap (fun x => x.data ++ [x.crc]) = r.take (3 * (cmd.respBytes / 3))
        ∧ r.length - 3 * (cmd.respBytes / 3) = cmd.respBytes % 3 := by
  have hlen : r.length = cmd.respBytes := (Dev_Tx_ok _ _ _ _ _ h).2
  refine ⟨hlen, _, _, readCommand_ok s cmd tr r h, by simp, ?_, by omega⟩
  exact groups_flatten_take r _ (by omega)

theorem readCommand_no_framing_error_witness :
    ((New (busOf fourBytes)).dev.Tx [] (PutUint16 fourByteCommand.cmd)
        (some fourByteCommand.respBytes)).1 = .ok fourBytes
      ∧ fourBytes.length = fourByteCommand.respBytes
      ∧ ∃ resp tr1, (New (busOf fourBytes)).readCommand fourByteCommand []
          = some ((resp, none), tr1)
        ∧ resp.length = fourByteCommand.respBytes / 3
        ∧ resp.flatMap (fun x => x.data ++ [x.crc])
            = fourBytes.take (3 * (fourByteCommand.respBytes / 3))
        ∧ fourBytes.length - 3 * (fourByteCommand.respBytes / 3)
            = fourByteCommand.respBytes % 3 :=
  ⟨rfl, readCommand_no_framing_error (New (busOf fourBytes)) fourByteCommand [] fourBytes rfl⟩

/-- C12, counterexample: a command with settle delay 0; `sendCommand`
succeeds with one bus transaction and no sleep at all. -/
theorem sendCommand_sleep_counterexample :
    fourByteCommand.delay = 0
      ∧ (New (busOf fourBytes)).sendCommand fourByteCommand []
          = (none, [Event.tx SensorAddr [0x00, 0x00] none])
      ∧ ∀ d, Event.sleep d ∉ ((New (busOf fourBytes)).sendCommand fourByteCommand []).2 := by
  refine ⟨rfl, rfl, ?_⟩
  intro d hd
  have e : ((New (busOf fourBytes)).sendCommand fourByteCommand []).2
      = [Event.tx SensorAddr [0x00, 0x00] none] := rfl
  rw [e] at hd
  simp at hd

/-- C12, amended: with the bus and the clock as an explicit list of events,
for every command `cmd` a successful `sendCommand(cmd)` performs exactly one
bus transaction whose write buffer is the two bytes
`[cmd.cmd >> 8, cmd.cmd & 0xFF]` with no read buffer, followed by exactly one
sleep of `cmd.delay` when `cmd.delay > 0` and by no sleep otherwise; a
successful `readCommand(cmd)` performs exactly one transaction with the same
write buffer and a read buffer of exactly `cmd.respBytes` bytes, followed by
exactly one sleep of `cmd.delay` when `cmd.delay > 0` and by no sleep
otherwise. -/
theorem transport_effects (s : Sen54) (cmd : Command) (tr : List Event)
    (hc : cmd.cmd < 65536) :
    (PutUint16 cmd.cmd).map Fin.val = [cmd.cmd >>> 8, cmd.cmd &&& 0xFF]
      ∧ ((s.sendCommand cmd tr).1 = none →
          (s.sendCommand cmd tr).2
            = tr ++ [Event.tx s.dev.Addr (PutUint16 cmd.cmd) none]
                ++ (if cmd.delay > 0 then [Event.sleep cmd.delay] else []))
      ∧ (∀ resp tr1, s.readCommand cmd tr = some ((resp, none), tr1) →
          tr1 = tr ++ [Event.tx s.dev.Addr (PutUint16 cmd.cmd) (some cmd.respBytes)]
                ++ (if cmd.delay > 0 then [Event.sleep cmd.delay] else [])) := by
  refine ⟨PutUint16_val _ hc, ?_, ?_⟩
  · intro hnone
    rcases Dev_Tx_cases s.dev tr (PutUint16 cmd.cmd) none with ⟨e, he⟩ | ⟨b, hb, _⟩
    · have h1 : (s.dev.Tx tr (PutUint16 cmd.cmd) none).1 = .error e := by rw [he]
      rw [sendCommand_error s cmd tr e h1] at hnone
      simp at hnone
    · have h1 : (s.dev.Tx tr (PutUint16 cmd.cmd) none).1 = .ok b := by rw [hb]
      rw [sendCommand_ok s cmd tr b h1]
  · intro resp tr1 hr
    rcases readCommand_cases s cmd tr with ⟨e, _, he⟩ | ⟨r, _, _, hok⟩
    · rw [he] at hr
      simp at hr
    · rw [hok] at hr
      simp only [Option.some.injEq, Prod.mk.injEq] at hr
      exact hr.2.symm

theorem transport_effects_witness :
    MeasureCommand.cmd < 65536
      ∧ (PutUint16 MeasureCommand.cmd).map Fin.val = [0x03, 0xC4]
      ∧ (PutUint16 StartCommand.cmd).map Fin.val = [0x00, 0x21]
      ∧ ((New (busOf sampleResponse)).sendCommand StartCommand []).2
          = [Event.tx SensorAddr [0x00, 0x21] none, Event.sleep (100 * Millisecond)]
      ∧ (∀ resp tr1, (New (busOf sampleResponse)).readCommand MeasureCommand []
            = some ((resp, none), tr1) →
          tr1 = [Event.tx SensorAddr [0x03, 0xC4] (some 24), Event.sleep (70 * Millisecond)]) :=
  ⟨by decide, (transport_effects (New (busOf sampleResponse)) MeasureCommand []
      (by decide)).1,
    (transport_effects (New (busOf sampleResponse)) StartCommand [] (by decide)).1,
    (transport_effects (New (busOf sampleResponse)) StartCommand [] (by decide)).2.1 rfl,
    (transport_effects (New (busOf sampleResponse)) MeasureCommand [] (by decide)).2.2⟩

/-- C13: for each of `StartMeasurements`, `StopMeasurements` and
`ReadMeasurement`, if the single bus transaction fails with cause `e`, the
operation returns the error "error while <command description>: <e>", the
events hold exactly one bus transaction (no retry), and `ReadMeasurement`
returns the zero `SensorData`; `StartMeasurements` and `StopMeasurements`
return a nil error whenever the transaction succeeds. -/
theorem operations_bus_failure (s : Sen54) (tr : List Event) (e : String) :
    ((s.dev.Tx (tr ++ [Event.lock]) (PutUint16 StartCommand.cmd) none).1 = .error e →
        s.StartMeasurements tr
          = (some ("error while start periodic measurements: " ++ e),
              tr ++ [Event.lock, Event.tx s.dev.Addr (PutUint16 StartCommand.cmd) none,
                Event.unlock]))
      ∧ ((s.dev.Tx (tr ++ [Event.lock]) (PutUint16 StopCommand.cmd) none).1 = .error e →
        s.StopMeasurements tr
          = (some ("error while stop periodic measurements: " ++ e),
              tr ++ [Event.lock, Event.tx s.dev.Addr (PutUint16 StopCommand.cmd) none,
                Event.unlock]))
      ∧ ((s.dev.Tx (tr ++ [Event.lock]) (PutUint16 MeasureCommand.cmd)
            (some MeasureCommand.respBytes)).1 = .error e →
        s.ReadMeasurement tr
          = some ((SensorData.mk 0 0 0 0 0 0 0, some ("error while read sensor metrics: " ++ e)),
              tr ++ [Event.lock,
                Event.tx s.dev.Addr (PutUint16 MeasureCommand.cmd) (some MeasureCommand.respBytes),
                Event.unlock]))
      ∧ (∀ b, (s.dev.Tx (tr ++ [Event.lock]) (PutUint16 StartCommand.cmd) none).1 = .ok b →
          (s.StartMeasurements tr).1 = none)
      ∧ (∀ b, (s.dev.Tx (tr ++ [Event.lock]) (PutUint16 StopCommand.cmd) none).1 = .ok b →
          (s.StopMeasurements tr).1 = none) := by
  refine ⟨?_, ?_, ?_, ?_, ?_⟩
  · intro h
    unfold Sen54.StartMeasurements
    rw [sendCommand_error s StartCommand _ e h]
    simp [StartCommand]
  · intro h
    unfold Sen54.StopMeasurements
    rw [sendCommand_error s StopCommand _ e h]
    simp [StopCommand]
  · intro h
    unfold Sen54.ReadMeasurement
    rw [readCommand_error s MeasureCommand _ e h]
    simp [MeasureCommand, SensorData.zero]
  · intro b h
    unfold Sen54.StartMeasurements
    rw [sendCommand_ok s StartCommand _ b h]
  · intro b h
    unfold Sen54.StopMeasurements
    rw [sendCommand_ok s StopCommand _ b h]

theorem operations_bus_failure_witness :
    (New (failingBus "no ack")).StartMeasurements []
        = (some "error while start periodic measurements: no ack",
            [Event.lock, Event.tx SensorAddr [0x00, 0x21] none, Event.unlock])
      ∧ (New (failingBus "no ack")).StopMeasurements []
        = (some "error while stop periodic measurements: no ack",
            [Event.lock, Event.tx SensorAddr [0x01, 0x04] none, Event.unlock])
      ∧ (New (failingBus "no ack")).ReadMeasurement []
        = some ((SensorData.mk 0 0 0 0 0 0 0, some "error while read sensor metrics: no ack"),
            [Event.lock, Event.tx SensorAddr [0x03, 0xC4] (some 24), Event.unlock])
      ∧ ((New (busOf [])).StartMeasurements []).1 = none
      ∧ ((New (busOf [])).StopMeasurements []).1 = none :=
  ⟨(operations_bus_failure (New (failingBus "no ack")) [] "no ack").1 rfl,
    (operations_bus_failure (New (failingBus "no ack")) [] "no ack").2.1 rfl,
    (operations_bus_failure (New (failingBus "no ack")) [] "no ack").2.2.1 rfl,
    (operations_bus_failure (New (busOf [])) [] "").2.2.2.1 [] rfl,
    (operations_bus_failure (New (busOf [])) [] "").2.2.2.2 [] rfl⟩

/-- C14: the command catalog.  `StartCommand` has opcode `0x0021`, 0 expected
response bytes and a 100 ms settle delay; `StopCommand` has opcode `0x0104`,
0 expected response bytes and a 250 ms settle delay; `MeasureCommand` has
opcode `0x03C4`, 24 expected response bytes and a 70 ms settle delay; every
expected response size is 0 or a multiple of 3. -/
theorem command_catalog :
    (StartCommand.cmd = 0x0021 ∧ StartCommand.respBytes = 0
        ∧ StartCommand.delay = 100 * Millisecond)
      ∧ (StopCommand.cmd = 0x0104 ∧ StopCommand.respBytes = 0
        ∧ StopCommand.delay = 250 * Millisecond)
      ∧ (MeasureCommand.cmd = 0x03C4 ∧ MeasureCommand.respBytes = 24
        ∧ MeasureCommand.delay = 70 * Millisecond)
      ∧ Millisecond = 1000000
      ∧ (∀ c ∈ [StartCommand, StopCommand, MeasureCommand],
          c.respBytes = 0 ∨ c.respBytes % 3 = 0) := by
  refine ⟨⟨rfl, rfl, rfl⟩, ⟨rfl, rfl, rfl⟩, ⟨rfl, rfl, rfl⟩, rfl, ?_⟩
  intro c hc
  simp only [List.mem_cons, List.mem_singleton, List.not_mem_nil, or_false] at hc
  rcases hc with rfl | rfl | rfl
  · exact Or.inl rfl
  · exact Or.inl rfl
  · exact Or.inr rfl

/-- C15, counterexample: a bus whose transactions always succeed and whose
device sends nothing, so the read buffer stays zeroed; `StartMeasurements`
returns a nil error and the following `ReadMeasurement` returns the checksum
error. -/
theorem sequence_counterexample :
    (∀ t a w r, ∃ sent, (busOf []).Tx t a w r = .ok sent)
      ∧ ((New (busOf [])).StartMeasurements []).1 = none
      ∧ (New (busOf [])).ReadMeasurement ((New (busOf [])).StartMeasurements []).2
          = some ((SensorData.zero, some "measuerment CRC mismatch"),
              measureEvents (New (busOf [])) ((New (busOf [])).StartMeasurements []).2) :=
  ⟨fun _ _ _ _ => ⟨[], rfl⟩, rfl,
    ReadMeasurement_mismatch (New (busOf [])) _ (List.replicate 24 0) rfl (by decide)⟩

/-- C15, amended: for every bus whose transactions always succeed and whose
measure transaction leaves a read buffer with eight right group checksums,
calling `StartMeasurements`, then `ReadMeasurement`, then `StopMeasurements`
in sequence returns a nil error from all three operations. -/
theorem sequence_succeeds (s : Sen54) (tr : List Event)
    (halways : ∀ t a w r, ∃ sent, s.dev.Bus.Tx t a w r = .ok sent)
    (hcrc : ∀ r, (s.dev.Tx ((s.StartMeasurements tr).2 ++ [Event.lock])
        (PutUint16 MeasureCommand.cmd) (some MeasureCommand.respBytes)).1 = .ok r →
      ∀ k < 8, crc8 [r.getD (3 * k) 0, r.getD (3 * k + 1) 0] 2 = some (r.getD (3 * k + 2) 0)) :
    (s.StartMeasurements tr).1 = none
      ∧ ∃ d t2, s.ReadMeasurement (s.StartMeasurements tr).2 = some ((d, none), t2)
        ∧ (s.StopMeasurements t2).1 = none := by
  have hsend : ∀ cmd t, (s.sendCommand cmd t).1 = none := by
    intro cmd t
    obtain ⟨sent, hs⟩ := halways t s.dev.Addr (PutUint16 cmd.cmd) none
    rw [sendCommand_ok s cmd t _ (Dev_Tx_of_bus_ok _ _ _ _ _ hs)]
  have hstart : ∀ t, (s.StartMeasurements t).1 = none := by
    intro t
    have := hsend StartCommand (t ++ [Event.lock])
    unfold Sen54.StartMeasurements
    cases hc : s.sendCommand StartCommand (t ++ [Event.lock]) with
    | mk e t1 =>
      rw [hc] at this
      simp only at this
      subst this
      rfl
  have hstop : ∀ t, (s.StopMeasurements t).1 = none := by
    intro t
    have := hsend StopCommand (t ++ [Event.lock])
    unfold Sen54.StopMeasurements
    cases hc : s.sendCommand StopCommand (t ++ [Event.lock]) with
    | mk e t1 =>
      rw [hc] at this
      simp only at this
      subst this
      rfl
  refine ⟨hstart tr, ?_⟩
  obtain ⟨sent, hs⟩ := halways ((s.StartMeasurements tr).2 ++ [Event.lock]) s.dev.Addr
    (PutUint16 MeasureCommand.cmd) (some MeasureCommand.respBytes)
  have hr := Dev_Tx_of_bus_ok _ _ _ _ _ hs
  exact ⟨_, _, ReadMeasurement_ok s _ _ hr (hcrc _ hr), hstop _⟩

theorem sequence_succeeds_witness :
    (∀ t a w r, ∃ sent, (New (busOf zeroResponse)).dev.Bus.Tx t a w r = .ok sent)
      ∧ ((New (busOf zeroResponse)).StartMeasurements []).1 = none
      ∧ ∃ d t2, (New (busOf zeroResponse)).ReadMeasurement
            ((New (busOf zeroResponse)).StartMeasurements []).2 = some ((d, none), t2)
        ∧ ((New (busOf zeroResponse)).StopMeasurements t2).1 = none :=
  ⟨fun _ _ _ _ => ⟨zeroResponse, rfl⟩,
    sequence_succeeds (New (busOf zeroResponse)) [] (fun _ _ _ _ => ⟨zeroResponse, rfl⟩)
      (fun r h => by
        have h2 : (Except.ok zeroResponse : Except String (List Byte)) = Except.ok r := h
        cases h2
        decide)⟩

/-- C16: known vectors.  `crc8` of the datasheet example byte pair
`[0xBE, 0xEF]` (count 2) is `0x92`, and `crc8` of `[0x00, 0x00]` is `0x81`;
a 24-byte response made of the group `[0x00, 0x00, 0x81]` repeated decodes
through `ReadMeasurement`, without error, to a `SensorData` whose seven
readings are all 0. -/
theorem known_vectors :
    crc8 [0xBE, 0xEF] 2 = some 0x92
      ∧ crc8 [0x00, 0x00] 2 = some 0x81
      ∧ zeroResponse = (List.replicate 8 [0x00, 0x00, 0x81]).flatten
      ∧ (New (busOf zeroResponse)).ReadMeasurement []
          = some ((SensorData.mk 0 0 0 0 0 0 0, none),
              measureEvents (New (busOf zeroResponse)) [])
      ∧ ∀ (s : Sen54) (tr : List Event),
          (s.dev.Tx (tr ++ [Event.lock]) (PutUint16 MeasureCommand.cmd)
            (some MeasureCommand.respBytes)).1 = .ok zeroResponse →
          s.ReadMeasurement tr
            = some ((SensorData.mk 0 0 0 0 0 0 0, none), measureEvents s tr) := by
  have hz : ∀ (s : Sen54) (tr : List Event),
      (s.dev.Tx (tr ++ [Event.lock]) (PutUint16 MeasureCommand.cmd)
        (some MeasureCommand.respBytes)).1 = .ok zeroResponse →
      s.ReadMeasurement tr
        = some ((SensorData.mk 0 0 0 0 0 0 0, none), measureEvents s tr) := by
    intro s tr h
    rw [ReadMeasurement_ok s tr zeroResponse h (by decide), ← scale_zero]
    rfl
  exact ⟨by decide, by decide, by decide, hz _ _ rfl, hz⟩

/-- C18: on a successful bus transaction that leaves the 24 bytes `r` in the
read buffer, `ReadMeasurement` returns a nil error if and only if all eight
consecutive 3-byte groups of `r` satisfy `crc8([r[3k], r[3k+1]], 2) = r[3k+2]`
for `k = 0..7`; a wrong checksum in the eighth group (bytes 21..23), whose
value is never decoded, still makes the measurement fail; and the decoded
`SensorData` depends only on bytes 0..19 of `r`. -/
theorem ReadMeasurement_nil_iff_eight_groups (s : Sen54) (tr : List Event) (r : List Byte)
    (h : (s.dev.Tx (tr ++ [Event.lock]) (PutUint16 MeasureCommand.cmd)
      (some MeasureCommand.respBytes)).1 = .ok r) :
    r.length = 24
      ∧ ((∃ d t, s.ReadMeasurement tr = some ((d, none), t))
          ↔ ∀ k < 8, crc8 [r.getD (3 * k) 0, r.getD (3 * k + 1) 0] 2
              = some (r.getD (3 * k + 2) 0))
      ∧ (crc8 [r.getD 21 0, r.getD 22 0] 2 ≠ some (r.getD 23 0) →
          ∃ err t, s.ReadMeasurement tr = some ((SensorData.zero, some err), t))
      ∧ (∀ (s2 : Sen54) (tr2 : List Event) (r2 : List Byte) (d d2 : SensorData)
          (t t2 : List Event),
          (s2.dev.Tx (tr2 ++ [Event.lock]) (PutUint16 MeasureCommand.cmd)
            (some MeasureCommand.respBytes)).1 = .ok r2 →
          s.ReadMeasurement tr = some ((d, none), t) →
          s2.ReadMeasurement tr2 = some ((d2, none), t2) →
          r.take 20 = r2.take 20 → d = d2) := by
  refine ⟨(Dev_Tx_ok _ _ _ _ _ h).2, ⟨?_, ?_⟩, ?_, ?_⟩
  · rintro ⟨d, t, hd⟩
    by_contra hno
    rw [ReadMeasurement_mismatch s tr r h hno] at hd
    simp at hd
  · intro hall
    exact ⟨_, _, ReadMeasurement_ok s tr r h hall⟩
  · intro hbad
    exact ⟨_, _, ReadMeasurement_mismatch s tr r h (fun hall => hbad (hall 7 (by decide)))⟩
  · intro s2 tr2 r2 d d2 t t2 h2 hd hd2 htake
    rw [ReadMeasurement_success s tr r h d t hd, ReadMeasurement_success s2 tr2 r2 h2 d2 t2 hd2,
      rawValue_of_take_eq r r2 0 (by decide) htake, rawValue_of_take_eq r r2 1 (by decide) htake,
      rawValue_of_take_eq r r2 2 (by decide) htake, rawValue_of_take_eq r r2 3 (by decide) htake,
      rawValue_of_take_eq r r2 4 (by decide) htake, rawValue_of_take_eq r r2 5 (by decide) htake,
      rawValue_of_take_eq r r2 6 (by decide) htake]

theorem ReadMeasurement_nil_iff_eight_groups_witness :
    ((New (busOf lastGroupBad)).dev.Tx ([] ++ [Event.lock]) (PutUint16 MeasureCommand.cmd)
        (some MeasureCommand.respBytes)).1 = .ok lastGroupBad
      ∧ lastGroupBad.length = 24
      ∧ ¬ (∃ d t, (New (busOf lastGroupBad)).ReadMeasurement [] = some ((d, none), t))
      ∧ ∃ err t, (New (busOf lastGroupBad)).ReadMeasurement []
          = some ((SensorData.zero, some err), t) :=
  have hw := ReadMeasurement_nil_iff_eight_groups (New (busOf lastGroupBad)) [] lastGroupBad rfl
  ⟨rfl, hw.1, fun hex => absurd (hw.2.1.1 hex) (by decide), hw.2.2.1 (by decide)⟩

/-- C19: for every expected response size `n` in 0..65535 and every read
buffer of length `n`, the framing loop of `readCommand` never indexes
outside the buffer and yields exactly `n / 3` (rounded down) fields, each
with a data slice of length exactly 2, so that `GetData` and `CrcMatch` on it
do not panic; for `n` in {0, 1, 2} it yields no field, and at most two
trailing bytes are ignored.  For `n = 24` it yields 8 fields, so the accesses
`resp[0]..resp[6]` of `ReadMeasurement` are in bounds and `ReadMeasurement`
never panics. -/
theorem framing_in_bounds (r : List Byte) (n : Nat) (hn : n < 65536) (hlen : r.length = n) :
    ∃ resp, readCommandLoop r n 0 [] = some resp
      ∧ resp.length = n / 3
      ∧ (∀ x ∈ resp, x.data.length = 2 ∧ x.GetData ≠ none ∧ x.CrcMatch ≠ none)
      ∧ (n < 3 → resp = [])
      ∧ (resp.flatMap (fun x => x.data ++ [x.crc]) = r.take (3 * (n / 3))
          ∧ n - 3 * (n / 3) ≤ 2)
      ∧ (n = 24 → resp.length = 8 ∧ ∀ k < 7, fieldData resp k ≠ none)
      ∧ ∀ (s : Sen54) (tr : List Event), s.ReadMeasurement tr ≠ none := by
  refine ⟨_, readCommandLoop_zero r n (by omega), by simp, ?_, ?_, ?_, ?_, ?_⟩
  · intro x hx
    simp only [List.mem_map] at hx
    obtain ⟨k, _, rfl⟩ := hx
    refine ⟨rfl, ?_, ?_⟩
    · simp [Response.GetData, specGroup, Uint16_pair]
    · simp [specGroup_CrcMatch]
  · intro h3
    have : n / 3 = 0 := by omega
    simp [this]
  · exact ⟨groups_flatten_take r _ (by omega), by omega⟩
  · intro h24
    subst h24
    refine ⟨by simp [hlen], ?_⟩
    intro k hk
    rw [fieldData_map r (24 / 3) k (by omega)]
    simp
  · intro s tr
    obtain ⟨d, err, t, h⟩ := ReadMeasurement_total s tr
    rw [h]
    simp

theorem framing_in_bounds_witness :
    (4 : Nat) < 65536 ∧ fourBytes.length = 4
      ∧ ∃ resp, readCommandLoop fourBytes 4 0 [] = some resp
        ∧ resp.length = 4 / 3
        ∧ (∀ x ∈ resp, x.data.length = 2 ∧ x.GetData ≠ none ∧ x.CrcMatch ≠ none)
        ∧ (4 < 3 → resp = [])
        ∧ (resp.flatMap (fun x => x.data ++ [x.crc]) = fourBytes.take (3 * (4 / 3))
            ∧ 4 - 3 * (4 / 3) ≤ 2)
        ∧ (4 = 24 → resp.length = 8 ∧ ∀ k < 7, fieldData resp k ≠ none)
        ∧ ∀ (s : Sen54) (tr : List Event), s.ReadMeasurement tr ≠ none :=
  ⟨by decide, rfl, framing_in_bounds fourBytes 4 (by decide) rfl⟩

/-- C20: the CRC residue.  For every byte sequence `d` of length below 65535,
appending its checksum gives a sequence whose checksum is zero,
`crc8(d ++ [crc8(d, len d)], len d + 1) = 0`; for every 2-byte data and every
byte `c`, `Response{data, c}.CrcMatch()` holds if and only if `crc8` of the
three bytes `data ++ [c]` is 0; and for each 2-byte data exactly one of the
256 possible checksum bytes is accepted. -/
theorem crc8_residue (d : List Byte) (_hlen : d.length < 65535) :
    (∃ c, crc8 d d.length = some c ∧ crc8 (d ++ [c]) (d.length + 1) = some 0)
      ∧ (∀ a b c : Byte,
          (Response.mk [a, b] c).CrcMatch = some true ↔ crc8 [a, b, c] 3 = some 0)
      ∧ (∀ a b : Byte, ∃! c : Byte, (Response.mk [a, b] c).CrcMatch = some true) := by
  refine ⟨?_, ?_, ?_⟩
  · obtain ⟨c, hc⟩ := crc8_total d
    refine ⟨c, hc, ?_⟩
    unfold crc8 at hc ⊢
    rw [crc8Bytes_append d c d.length 0 _ (by omega), hc]
    simp only [Option.bind, Nat.xor_self]
    rfl
  · intro a b c
    rw [CrcMatch_pair_iff, crc8_three]
    obtain ⟨x, hx⟩ := crc8_total [a, b]
    have hx2 : crc8 [a, b] 2 = some x := hx
    rw [hx2]
    simp only [Option.bind, Option.some.injEq]
    constructor
    · intro h
      rw [(toByte_xor_eq_zero x c).2 h]
      rfl
    · intro h
      exact (toByte_xor_eq_zero x c).1 (crc8Bits_eight_eq_zero _ h)
  · intro a b
    obtain ⟨x, hx⟩ := crc8_total [a, b]
    have hx2 : crc8 [a, b] 2 = some x := hx
    refine ⟨x, (CrcMatch_pair_iff a b x).2 hx2, ?_⟩
    intro y hy
    have := (CrcMatch_pair_iff a b y).1 hy
    rw [hx2] at this
    exact (Option.some.inj this).symm

theorem crc8_residue_witness :
    ([0xBE, 0xEF] : List Byte).length < 65535
      ∧ (∃ c, crc8 [0xBE, 0xEF] ([0xBE, 0xEF] : List Byte).length = some c
          ∧ crc8 ([0xBE, 0xEF] ++ [c]) (([0xBE, 0xEF] : List Byte).length + 1) = some 0)
      ∧ crc8 [0xBE, 0xEF, 0x92] 3 = some 0 :=
  have hw := crc8_residue [0xBE, 0xEF] (by decide)
  ⟨by decide, hw.1, (hw.2.1 0xBE 0xEF 0x92).1 (by decide)⟩

end sen54
